import Mathlib

/-!
# Verification of the parts/instruments/staves mutation engine

A shallow embedding of `src/notation/internal/notationparts.cpp` (MuseScore's
parts-management component).  The component's own logic is translated
line-by-line; the Score Model collaborator (libmscore: `Ms::Part`,
`Ms::Score`, `Ms::Staff`, `Ms::Excerpt`) is not part of the excerpted
sources, so its primitives are modelled from the specification (each such
definition carries a doc comment starting with `Modelled from the spec:`).

Representation choices:
* identifiers (part ids, staff ids, instrument ids) are `Nat`;
* musical ticks (`Ms::Fraction::ticks()`) are `Int`;
* a part's time-indexed instrument table (`QMap<Fraction, Instrument*>` /
  `std::map<int, Instrument*>`) is a tick-sorted association list;
* object identity of staves and instrument-change elements (C++ pointers)
  is a `key : Nat` drawn from a freshness counter `nextKey` in the state;
* notifications are recorded as a list of `Event` values returned next to
  the post-state;
* staff layout configuration fields that no claim mentions (bracket, barline
  span, clef, colors, ...) are omitted; the `small` staff-type flag is kept
  because `setSmallStaff` edits it.
-/

set_option maxHeartbeats 1000000

namespace MuseParts

/-- An `Ms::Instrument` as far as the claims are concerned: its (non-unique)
instrument id and its track name (used by `formatPartName`). -/
structure MsInstrument where
  instrumentId : Nat
  trackName : String
deriving DecidableEq, Repr

/-- An `Ms::Staff`.  `key` is the C++ object identity (pointer), `sid` the
staff id used by `score()->staff(id)` lookups, `content` the musical content
as (tick, payload) pairs, `linked` the linked-staff flag and `small` the
small-staff flag of the staff type at tick 0. -/
structure MsStaff where
  key : Nat
  sid : Nat
  content : List (Int × Nat)
  linked : Bool
  small : Bool
deriving DecidableEq, Repr

/-- An `Ms::Part`: stable id, display name, the tick-sorted instrument
mapping and the ordered staff list.  `showFlag` is `Part::show()`. -/
structure MsPart where
  pid : Nat
  partName : String
  instrumentsMap : List (Int × MsInstrument)
  staves : List MsStaff
  showFlag : Bool
deriving DecidableEq, Repr

/-- A chord/rest (`Ms::ChordRest`) as needed here: its tick, the id of the
part it belongs to, and its track. -/
structure ChordRest where
  tick : Int
  partId : Nat
  track : Nat
deriving DecidableEq, Repr

/-- An `Ms::InstrumentChange` element anchored in the score: object identity
`key`, anchor tick, owning part and the instrument it switches to. -/
structure ICElem where
  key : Nat
  tick : Int
  partId : Nat
  instr : MsInstrument
deriving DecidableEq, Repr

/-- An excerpt (`Ms::Excerpt`): the parts of its part-score. -/
structure Excerpt where
  eparts : List MsPart
deriving DecidableEq, Repr

/-- `Ms::MsError`: the score-wide global error flag values relevant here. -/
inductive MsError where
  | MS_NO_ERROR
  | NO_NOTE_REST_SELECTED
  | otherError
deriving DecidableEq, Repr

/-- The state seen by the component: the current score's parts, whether the
current score is the master, the master's parts (meaningful only when the
current score is an excerpt view), the master's excerpts, the measure start
ticks, chord/rest elements in segment order, instrument-change elements, the
current selection, the global error flag and the freshness counter. -/
structure NPState where
  parts : List MsPart
  curIsMaster : Bool
  masterParts : List MsPart
  excerpts : List Excerpt
  measures : List Int
  chordRests : List ChordRest
  instrChanges : List ICElem
  selection : Option ChordRest
  errorFlag : MsError
  nextKey : Nat
deriving DecidableEq, Repr

/-- Notifications fired by the component. -/
inductive Event where
  | partsNotifierChanged
  | partsChanged
  | partItemChanged (pid : Nat)
  | instrItemChanged (pid iid : Nat)
  | instrItemAdded (pid iid : Nat)
  | instrItemReplaced (pid oldIid newIid : Nat)
  | staffItemChanged (pid iid sid : Nat)
  | staffItemAdded (pid iid sid : Nat)
deriving DecidableEq, Repr

/-- `INotationParts::InsertMode`. -/
inductive InsertMode where
  | before
  | after
deriving DecidableEq, Repr

/-- The instrument description supplied by callers
(`mu::instruments::Instrument`): id, name, number of staves and the
per-staff small flags. -/
structure Instrument where
  id : Nat
  name : String
  staves : Nat
  smallStaff : List Bool
deriving DecidableEq, Repr

/-- `InstrumentsConverter::convertInstrument`: Modelled from the spec: the
format conversion helper translating the caller-facing instrument spec into
the Score Model's instrument. -/
def convertInstrument (i : Instrument) : MsInstrument :=
  { instrumentId := i.id, trackName := i.name }

/-- `QList::insert(i, v)`-style insertion (appends when the index is past
the end). -/
def listInsertIdx {α : Type} : List α → Nat → α → List α
  | xs, 0, a => a :: xs
  | [], _ + 1, a => [a]
  | x :: xs, n + 1, a => x :: listInsertIdx xs n a

/-- `Part::instrument()->instrumentId()`: Modelled from the spec: the part's
main instrument is the first (tick-0) entry of its instrument mapping. -/
def mainInstrumentId (p : MsPart) : Nat :=
  match p.instrumentsMap with
  | [] => 0
  | (_, i) :: _ => i.instrumentId

/-- `Part::setInstrument(instr, tick)`: Modelled from the spec: insert into
the tick-sorted mapping, replacing an entry already at that tick. -/
def mapInsert : List (Int × MsInstrument) → Int → MsInstrument → List (Int × MsInstrument)
  | [], t, i => [(t, i)]
  | (t0, i0) :: rest, t, i =>
    if t < t0 then (t, i) :: (t0, i0) :: rest
    else if t = t0 then (t, i) :: rest
    else (t0, i0) :: mapInsert rest t i

/-- `Part::removeInstrument(instrumentId)`: Modelled from the spec: removes
the first mapping entry carrying the given instrument id. -/
def removeInstrumentFromMap : List (Int × MsInstrument) → Nat → List (Int × MsInstrument)
  | [], _ => []
  | (t, i) :: rest, iid =>
    if i.instrumentId = iid then rest else (t, i) :: removeInstrumentFromMap rest iid

/-- `NotationParts::instruments(fromPart, filterInstrumentsIds)`: the part's
instrument table, filtered (an empty filter accepts everything). -/
def instrumentsOf (p : MsPart) (filterIds : List Nat) : List (Int × MsInstrument) :=
  p.instrumentsMap.filter (fun e => filterIds.isEmpty || filterIds.contains e.2.instrumentId)

/-- `NotationParts::instrumentInfo(instrumentId, fromPart)`: the first
(tick, instrument) entry with the given instrument id, if any (an invalid
`InstrumentInfo` is `none`; the C++ also returns invalid when the mapping is
empty, which the `find?` covers). -/
def instrumentInfo (iid : Nat) (p : MsPart) : Option (Int × MsInstrument) :=
  (instrumentsOf p []).find? (fun e => e.2.instrumentId == iid)

/-- Apply `f` to the part(s) of the current score carrying id `pid`
(C++ mutates through a `Part*`; part ids are unique in every state the
component handles). -/
def updatePart (pid : Nat) (f : MsPart → MsPart) (s : NPState) : NPState :=
  { s with parts := s.parts.map (fun p => if p.pid = pid then f p else p) }

/-- The structural signature of a part that staff-motion helpers leave
untouched: everything except its staff list. -/
def partSig (p : MsPart) : Nat × List (Int × MsInstrument) × String × Bool :=
  (p.pid, p.instrumentsMap, p.partName, p.showFlag)

/-- `masterScore()->parts()`: Modelled from the spec: when the current score
is the master its own part list is the master part list. -/
def masterPartsOf (s : NPState) : List MsPart :=
  if s.curIsMaster then s.parts else s.masterParts

/-- `NotationParts::availableParts(score())` for the current score:
`scoreParts ++ excerptParts`, where excerpt parts are only visible from a
master score. -/
def availablePartsCur (s : NPState) : List MsPart :=
  s.parts ++ (if s.curIsMaster then s.excerpts.flatMap (fun e => e.eparts) else [])

/-- `NotationParts::availableParts(masterScore())`: the master score is a
master, so its own parts plus every excerpt's parts. -/
def availablePartsMaster (s : NPState) : List MsPart :=
  masterPartsOf s ++ s.excerpts.flatMap (fun e => e.eparts)

/-- `NotationParts::part(partId)` (current score): first available part with
the given id. -/
def partLookupCur (s : NPState) (pid : Nat) : Option MsPart :=
  (availablePartsCur s).find? (fun p => p.pid == pid)

/-- `NotationParts::part(partId, masterScore())`. -/
def partLookupMaster (s : NPState) (pid : Nat) : Option MsPart :=
  (availablePartsMaster s).find? (fun p => p.pid == pid)

/-- The de-duplication loop of `NotationParts::partList()`: keep a part only
if its id was not seen before. -/
def dedupByPidGo (seen : List Nat) : List MsPart → List MsPart
  | [] => []
  | p :: rest =>
    if seen.contains p.pid then dedupByPidGo seen rest
    else p :: dedupByPidGo (p.pid :: seen) rest

/-- `NotationParts::partList()` (the parts of the returned `NotifyList`):
available parts of the current score, de-duplicated by part id, first
occurrence kept. -/
def partListParts (s : NPState) : List MsPart :=
  dedupByPidGo [] (availablePartsCur s)

/-- `score()->staves()`: Modelled from the spec: the current score's staves
in order, i.e. the concatenation of its parts' staff lists. -/
def scoreStaves (s : NPState) : List MsStaff :=
  s.parts.flatMap (fun p => p.staves)

/-- `NotationParts::staff(staffId)` via `score()->staff(id)`: first staff
with the given staff id. -/
def staffLookup (s : NPState) (staffId : Nat) : Option MsStaff :=
  (scoreStaves s).find? (fun st => st.sid == staffId)

/-- `NotationParts::staves(stavesIds)`: resolve each id, silently skipping
the ones that do not resolve. -/
def stavesByIds (s : NPState) (ids : List Nat) : List MsStaff :=
  ids.foldr (fun sid acc =>
    match staffLookup s sid with
    | some st => st :: acc
    | none => acc) []

/-- `Staff::idx()`: Modelled from the spec: the staff's global index in the
current score's staff order (identified by object key). -/
def staffGlobalIdx (s : NPState) (k : Nat) : Nat :=
  (scoreStaves s).findIdx (fun st => st.key == k)

/-- `Staff::part()` / the part a staff object belongs to. -/
def partPidOfStaffKey (s : NPState) (k : Nat) : Nat :=
  (((s.parts.find? (fun p => p.staves.any (fun st => st.key == k)))).map (fun p => p.pid)).getD 0

/-- `score()->staffIdx(part)`: Modelled from the spec: the global index of
the part's first staff = total staff count of the parts before it. -/
def staffIdxOfPart (s : NPState) (pid : Nat) : Nat :=
  ((s.parts.takeWhile (fun p => p.pid ≠ pid)).map (fun p => p.staves.length)).foldl (· + ·) 0

/-- Sorted-by-tick insertion for the `QMap<Fraction, InstrumentChange*>`
built by `instrumentChangeElements` (a later insert at the same tick
overwrites). -/
def icInsert : List (Int × ICElem) → Int → ICElem → List (Int × ICElem)
  | [], t, e => [(t, e)]
  | (t0, e0) :: rest, t, e =>
    if t < t0 then (t, e) :: (t0, e0) :: rest
    else if t = t0 then (t, e) :: rest
    else (t0, e0) :: icInsert rest t e

/-- `NotationParts::instrumentChangeElements(partId)`: scan the score's
elements in segment order, keep the instrument changes of the given part,
keyed by tick. -/
def instrumentChangeElements (s : NPState) (pid : Nat) : List (Int × ICElem) :=
  (s.instrChanges.filter (fun e => e.partId == pid)).foldl
    (fun acc e => icInsert acc e.tick e) []

/-- `NotationParts::chordRest(fraction, fromPart)`: the first chord/rest (in
segment order) of the given part at exactly the given tick. -/
def chordRestAt (s : NPState) (t : Int) (pid : Nat) : Option ChordRest :=
  s.chordRests.find? (fun c => c.partId == pid && c.tick == t)

/-- `score()->undoRemoveElement(instrumentChange)`: Modelled from the spec:
removes the element (identified by object key). -/
def removeICElem (k : Nat) (s : NPState) : NPState :=
  { s with instrChanges := s.instrChanges.filter (fun e => e.key ≠ k) }

/-- `NotationParts::formatPartName(part)`: the part's instruments' track
names joined with " & " (empty for an unresolvable part). -/
def formatPartNameSt (s : NPState) (pid : Nat) : String :=
  match s.parts.find? (fun p => p.pid == pid) with
  | none => ""
  | some p => String.intercalate " & " (p.instrumentsMap.map (fun e => e.2.trackName))

/-- `NotationParts::doSetPartName(part, formatPartName(part))` as used by the
mutating operations: an undoable rename to the freshly formatted name. -/
def doSetPartNameSt (pid : Nat) (s : NPState) : NPState :=
  updatePart pid (fun p => { p with partName := formatPartNameSt s pid }) s

/-- `NotationParts::notifyAboutStaffChanged(staffId)`: the events it fires
(one staff item-changed on the (part, main instrument) channel). -/
def notifyAboutStaffChangedEv (s : NPState) (staffId : Nat) : List Event :=
  match staffLookup s staffId with
  | none => []
  | some st =>
    let pid := partPidOfStaffKey s st.key
    match s.parts.find? (fun p => p.pid == pid) with
    | none => []
    | some p => [Event.staffItemChanged pid (mainInstrumentId p) st.sid]

/-- `NotationParts::notifyAboutInstrumentsChanged(partId)`: one instrument
item-changed event per instrument of the part. -/
def notifyAboutInstrumentsChangedEv (s : NPState) (pid : Nat) : List Event :=
  match partLookupCur s pid with
  | none => []
  | some p => p.instrumentsMap.map (fun e => Event.instrItemChanged pid e.2.instrumentId)

/-- The per-id loop of `NotationParts::doRemoveInstruments`: resolve the
id's (tick, instrument) entry in the live part (skip when invalid), remove
the instrument-change element anchored at that tick if one exists (from the
snapshot `elems` taken before the loop), and remove the mapping entry. -/
def doRemoveInstrumentsLoop (fromPid : Nat) (elems : List (Int × ICElem)) :
    List Nat → NPState → NPState
  | [], st => st
  | iid :: restIds, st =>
    let st' :=
      match st.parts.find? (fun p => p.pid == fromPid) with
      | none => st
      | some live =>
        match instrumentInfo iid live with
        | none => st
        | some (t, _) =>
          let st1 :=
            match elems.find? (fun e => e.1 == t) with
            | some (_, e) => removeICElem e.key st
            | none => st
          updatePart fromPid
            (fun p => { p with instrumentsMap := removeInstrumentFromMap p.instrumentsMap iid })
            st1
    doRemoveInstrumentsLoop fromPid elems restIds st'

/-- `NotationParts::doRemoveInstruments(instrumentIds, fromPart)`. -/
def doRemoveInstruments (ids : List Nat) (fromPid : Nat) (s : NPState) : NPState :=
  doRemoveInstrumentsLoop fromPid (instrumentChangeElements s fromPid) ids s

/-- `score()->cmdRemovePart(part)`: Modelled from the spec: the Score Model
primitive removing the part (with its staves) from the current score; the
part's chord/rests and instrument-change anchors go with it. -/
def cmdRemovePartCur (pid : Nat) (s : NPState) : NPState :=
  { s with
    parts := s.parts.filter (fun p => p.pid ≠ pid)
    chordRests := s.chordRests.filter (fun c => c.partId ≠ pid)
    instrChanges := s.instrChanges.filter (fun e => e.partId ≠ pid) }

/-- `NotationParts::doRemoveParts(partsIds)`: remove each part from the
current score, and (when the current score is the master) from every other
score in the score list, i.e. from every excerpt. -/
def doRemoveParts : List Nat → NPState → NPState
  | [], s => s
  | pid :: rest, s =>
    let st1 := cmdRemovePartCur pid s
    let st2 :=
      if st1.curIsMaster then
        let excerpts' := st1.excerpts.map (fun e => Excerpt.mk (e.eparts.filter (fun p => p.pid ≠ pid)))
        { st1 with excerpts := excerpts' }
      else st1
    doRemoveParts rest st2

/-- The part walk of `NotationParts::removeMissingInstruments`: a part all
of whose instruments are missing from the new id list is scheduled for
removal (appended to the accumulator), otherwise only its missing
instrument entries are removed in place. -/
def removeMissingLoop (newIds : List Nat) :
    List MsPart → NPState → List Nat → NPState × List Nat
  | [], st, acc => (st, acc)
  | p :: rest, st, acc =>
    let live := (st.parts.find? (fun q => q.pid == p.pid)).getD p
    let partInstruments := instrumentsOf live []
    let instrumentsToRemove :=
      (partInstruments.filter (fun e => !(newIds.contains e.2.instrumentId))).map
        (fun e => e.2.instrumentId)
    if instrumentsToRemove.length = partInstruments.length then
      removeMissingLoop newIds rest st (acc ++ [p.pid])
    else
      removeMissingLoop newIds rest (doRemoveInstruments instrumentsToRemove p.pid st) acc

/-- `NotationParts::removeMissingInstruments(newInstrumentIds)`: walk the
de-duplicated part list, then remove the scheduled parts. -/
def removeMissingInstruments (newIds : List Nat) (s : NPState) : NPState :=
  let acc := removeMissingLoop newIds (partListParts s) s []
  doRemoveParts acc.2 acc.1

/-- `NotationParts::allInstrumentsIds()`: every instrument id of every part
in the (de-duplicated) part list, duplicates included. -/
def allInstrumentsIds (s : NPState) : List Nat :=
  (partListParts s).flatMap (fun p => (instrumentsOf p []).map (fun e => e.2.instrumentId))

/-- `NotationParts::lastStaffIndex()`. -/
def lastStaffIndex (s : NPState) : Nat :=
  if (scoreStaves s).isEmpty then 0 else (scoreStaves s).length - 1

/-- `NotationParts::appendStaves(part, instrument)`: create one staff per
instrument staff, configured by `initStaff` (the `small` flag comes from the
instrument's per-staff flags, forced off from staff index 4 = MAX_STAVES
on), and insert it at the part-local index.  Fresh staves carry no musical
content. -/
def appendStavesLoop (pid : Nat) (instr : Instrument) : Nat → Nat → NPState → NPState
  | 0, _, st => st
  | k + 1, i, st =>
    let staff : MsStaff :=
      { key := st.nextKey, sid := st.nextKey, content := [], linked := false,
        small := if i ≥ 4 then false else instr.smallStaff.getD i false }
    let st1 := { st with nextKey := st.nextKey + 1 }
    let st2 := updatePart pid (fun p => { p with staves := listInsertIdx p.staves i staff }) st1
    appendStavesLoop pid instr k (i + 1) st2

def appendStaves (pid : Nat) (instr : Instrument) (s : NPState) : NPState :=
  appendStavesLoop pid instr instr.staves 0 s

/-- `NotationParts::doMoveStaves(staves, destinationStaffIndex,
destinationPart)`: clone each staff (fresh object, same staff id, same
content after `Excerpt::cloneStaff`, linked state preserved by the
clone/unlink pair), insert the clones at consecutive part-local indices into
the destination part (the staff's own part when none is given), then remove
every original staff. -/
def doMoveStavesInsert (destinationPart : Option Nat) :
    List MsStaff → Nat → NPState → NPState
  | [], _, st => st
  | staff :: rest, idx, st =>
    let movedStaff : MsStaff := { staff with key := st.nextKey }
    let st1 := { st with nextKey := st.nextKey + 1 }
    let targetPid :=
      match destinationPart with
      | some pid => pid
      | none => partPidOfStaffKey st staff.key
    let st2 := updatePart targetPid
      (fun p => { p with staves := listInsertIdx p.staves idx movedStaff }) st1
    doMoveStavesInsert destinationPart rest (idx + 1) st2

def doMoveStavesRemove : List MsStaff → NPState → NPState
  | [], st => st
  | staff :: rest, st =>
    let parts' := st.parts.map (fun p => { p with staves := p.staves.filter (fun t => t.key ≠ staff.key) })
    doMoveStavesRemove rest { st with parts := parts' }

def doMoveStaves (staves : List MsStaff) (destinationStaffIndex : Nat)
    (destinationPart : Option Nat) (s : NPState) : NPState :=
  doMoveStavesRemove staves (doMoveStavesInsert destinationPart staves destinationStaffIndex s)

/-- `NotationParts::doMovePart(sourcePartId, destinationPartId, mode)`:
resolve both parts (silently return when either is missing), remove the
source part from the part list, re-insert it before/after the destination
part's index, relocate its staves (into itself, at local index 0 or at the
end depending on which side it came from), and restore its instrument
mapping. -/
def doMovePart (sourcePartId destinationPartId : Nat) (mode : InsertMode)
    (s : NPState) : NPState :=
  match partLookupCur s sourcePartId, partLookupCur s destinationPartId with
  | some part, some destinationPart =>
    let partIsBefore := staffIdxOfPart s part.pid < staffIdxOfPart s destinationPart.pid
    let staves := part.staves
    let destinationStaffIndex := if partIsBefore then staves.length else 0
    let s1 := { s with parts := s.parts.eraseP (fun p => p.pid == part.pid) }
    let toPartIndex := s1.parts.findIdx (fun p => p.pid == destinationPart.pid)
    let newPartIndex :=
      match mode with
      | InsertMode.before => toPartIndex
      | InsertMode.after => toPartIndex + 1
    let s2 := { s1 with parts := listInsertIdx s1.parts newPartIndex part }
    let instrumentsCopy := part.instrumentsMap
    let s3 := doMoveStaves staves destinationStaffIndex none s2
    updatePart part.pid (fun p => { p with instrumentsMap := instrumentsCopy }) s3
  | _, _ => s

/-- The loop body of `NotationParts::sortParts`: at index `i`, skip when the
part already carries the expected main instrument id, otherwise relocate the
first later part that does (the mode of the `doMovePart` call is the
declaration's default, Modelled from the spec: relocation into the slot,
i.e. before the currently misplaced part). -/
def sortLoop (ids : List Nat) : Nat → Nat → NPState → NPState
  | _, 0, s => s
  | i, fuel + 1, s =>
    let s' :=
      match s.parts[i]? with
      | none => s
      | some currentPart =>
        if mainInstrumentId currentPart = ids.getD i 0 then s
        else
          match (s.parts.drop i).find? (fun p => mainInstrumentId p == ids.getD i 0) with
          | none => s
          | some part => doMovePart part.pid currentPart.pid InsertMode.before s
    sortLoop ids (i + 1) fuel s'

/-- `NotationParts::sortParts(instrumentIds)`: the `Q_ASSERT` comparing the
part count with the supplied id count is fatal (`none`); otherwise run the
stable relocation loop. -/
def sortParts (ids : List Nat) (s : NPState) : Option NPState :=
  if s.parts.length = ids.length then some (sortLoop ids 0 ids.length s) else none

/-- `NotationParts::removeEmptyExcerpts()`: drop every excerpt whose
part-score has no staves. -/
def removeEmptyExcerpts (s : NPState) : NPState :=
  { s with excerpts :=
      s.excerpts.filter (fun e => !(e.eparts.flatMap (fun p => p.staves)).isEmpty) }

/-- The part-creation loop of `NotationParts::setInstruments`: an
instrument id already present anywhere is skipped; otherwise a fresh part
carrying just that instrument (at tick 0) is appended and its staves are
created. -/
def createPartsLoop (existedInstrumentIds : List Nat) :
    List Instrument → NPState → NPState
  | [], st => st
  | instrument :: rest, st =>
    let st' :=
      if !existedInstrumentIds.isEmpty && existedInstrumentIds.contains instrument.id then st
      else
        let newPart : MsPart :=
          { pid := st.nextKey, partName := instrument.name,
            instrumentsMap := [(0, convertInstrument instrument)], staves := [],
            showFlag := true }
        let st1 := { st with parts := st.parts ++ [newPart], nextKey := st.nextKey + 1 }
        appendStaves newPart.pid instrument st1
    createPartsLoop existedInstrumentIds rest st'

/-- `NotationParts::setInstruments(instruments)`: one transaction removing
instruments/parts missing from the target list, creating a part (with
staves) for every target instrument id not present anywhere, ensuring at
least one measure, sorting parts by the target order (fatal assertion on a
part/id count mismatch) and dropping staff-less excerpts; afterwards the
blanket part notifications fire. -/
def setInstruments (instruments : List Instrument) (s : NPState) :
    Option (NPState × List Event) :=
  let instrumentIds := instruments.map (fun i => i.id)
  let s1 := removeMissingInstruments instrumentIds s
  let existedInstrumentIds := allInstrumentsIds s1
  let s2 := createPartsLoop existedInstrumentIds instruments s1
  let s3 := if s2.measures.isEmpty then { s2 with measures := [0] } else s2
  match sortParts instrumentIds s3 with
  | none => none
  | some s4 =>
    let s5 := removeEmptyExcerpts s4
    some (s5, [Event.partsNotifierChanged, Event.partsChanged])

/-- `NotationParts::setSmallStaff(staffId, smallStaff)`.  The C++ reads
`staff->staffType(DEFAULT_TICK)` *before* the `!staff` null check, so a
staff id that resolves to nothing dereferences a null pointer: that outcome
is `none`.  On an existing staff the small flag of its tick-0 staff type is
set undoably and the staff notification fires. -/
def setSmallStaff (staffId : Nat) (smallStaff : Bool) (s : NPState) :
    Option (NPState × List Event) :=
  match staffLookup s staffId with
  | none => none
  | some staff =>
    let parts' := s.parts.map (fun p =>
      { p with staves := p.staves.map (fun t =>
          if t.key == staff.key then { t with small := smallStaff } else t) })
    let s1 := { s with parts := parts' }
    some (s1, notifyAboutStaffChangedEv s1 staffId ++ [Event.partsChanged])

/-- `NotationParts::moveParts(sourcePartsIds, destinationPartId, mode)`:
one transaction moving each source part; the parts-changed notification
fires regardless of how many moves resolved. -/
def moveParts (sourcePartsIds : List Nat) (destinationPartId : Nat)
    (mode : InsertMode) (s : NPState) : NPState × List Event :=
  let s1 := sourcePartsIds.foldl (fun st pid => doMovePart pid destinationPartId mode st) s
  (s1, [Event.partsChanged])

/-- `NotationParts::appendDoublingInstrument(instrument, destinationPartId)`:
compute `lastTick` as the maximum of 1 and every existing mapping tick, then
insert the converted instrument at `lastTick + 1` and rename the part. -/
def appendDoublingInstrument (instrument : Instrument) (destinationPartId : Nat)
    (s : NPState) : NPState × List Event :=
  match partLookupCur s destinationPartId with
  | none => (s, [])
  | some part =>
    let lastTick := (instrumentsOf part []).foldl (fun acc e => max e.1 acc) 1
    let s1 := updatePart part.pid (fun p =>
      { p with instrumentsMap :=
          mapInsert p.instrumentsMap (lastTick + 1) (convertInstrument instrument) }) s
    let s2 := doSetPartNameSt part.pid s1
    (s2, [Event.instrItemAdded destinationPartId instrument.id,
          Event.partItemChanged part.pid, Event.partsChanged])

/-- `score()->getSelectedChordRest()`: Modelled from the spec: the selection
query returns the selected chord/rest; when no chord/rest is selected it
sets the score-wide error flag to `NO_NOTE_REST_SELECTED` as a side
effect. -/
def getSelectedChordRest (s : NPState) : Option ChordRest × NPState :=
  match s.selection with
  | none => (none, { s with errorFlag := MsError.NO_NOTE_REST_SELECTED })
  | some c => (some c, s)

/-- `NotationParts::selectedChord()`: query the selection and reset the
global error flag to `MS_NO_ERROR` whenever the query left it at
`NO_NOTE_REST_SELECTED`. -/
def selectedChord (s : NPState) : Option ChordRest × NPState :=
  let r := getSelectedChordRest s
  if r.2.errorFlag = MsError.NO_NOTE_REST_SELECTED then
    (r.1, { r.2 with errorFlag := MsError.MS_NO_ERROR })
  else r

/-- `NotationParts::needAssignInstrumentToChord(instrumentId, fromPartId)`. -/
def needAssignInstrumentToChord (instrumentId fromPartId : Nat) (s : NPState) : Bool :=
  match partLookupCur s fromPartId with
  | none => false
  | some part =>
    if mainInstrumentId part = instrumentId then false
    else !(instrumentChangeElements s fromPartId).any
      (fun e => e.2.instr.instrumentId == instrumentId)

/-- `NotationParts::resolveCanChangeInstrumentVisibility(instrumentId,
fromPartId)` (with the state threaded because `selectedChord` can clear the
global error flag). -/
def resolveCanChangeInstrumentVisibility (instrumentId fromPartId : Nat)
    (s : NPState) : Bool × NPState :=
  if !(needAssignInstrumentToChord instrumentId fromPartId s) then (true, s)
  else
    let r := selectedChord s
    match r.1 with
    | none => (false, r.2)
    | some chord => (chord.partId == fromPartId, r.2)

/-- `NotationParts::assignIstrumentToSelectedChord(instrument)`: silently
return when nothing is selected; otherwise take the *selected chord's* part,
remove the instrument id from its mapping, re-insert the instrument at the
chord's tick and add the anchoring `InstrumentChange` element at the chord's
segment. -/
def assignIstrumentToSelectedChord (instrument : MsInstrument) (s : NPState) :
    NPState × List Event :=
  let r := selectedChord s
  match r.1 with
  | none => (r.2, [])
  | some chord =>
    let partId := chord.partId
    let s1 := updatePart partId (fun p =>
      let m := removeInstrumentFromMap p.instrumentsMap instrument.instrumentId
      { p with instrumentsMap := mapInsert m chord.tick instrument }) r.2
    let instrumentChange : ICElem :=
      { key := s1.nextKey, tick := chord.tick, partId := partId, instr := instrument }
    let s2 := { s1 with instrChanges := s1.instrChanges ++ [instrumentChange]
                        nextKey := s1.nextKey + 1 }
    (s2, [Event.instrItemChanged partId instrument.instrumentId, Event.partsChanged])

/-- Sorted-tick insertion used to mirror the `std::sort` of
`partInstrumentsFractions`. -/
def insertSortedTick (t : Int) : List Int → List Int
  | [] => [t]
  | x :: xs => if t ≤ x then t :: x :: xs else x :: insertSortedTick t xs

/-- `std::sort` of the fraction list by `<`. -/
def sortTicks : List Int → List Int
  | [] => []
  | x :: xs => insertSortedTick x (sortTicks xs)

/-- The assignment loop of `NotationParts::doInsertInstruments` over the
(fraction, instrument) pairs from index 1 on: re-anchor an existing
`InstrumentChange` at that tick, or create one at the chord/rest found
there (an unresolvable anchor is logged and the entry is left without
one); in every branch the mapping entry is assigned. -/
def doInsertLoop (destinationPartId : Nat) (icElems : List (Int × ICElem)) :
    List (Int × MsInstrument) → NPState → NPState
  | [], st => st
  | (fraction, instrument) :: rest, st =>
    let stMap := updatePart destinationPartId (fun p =>
      { p with instrumentsMap := mapInsert p.instrumentsMap fraction instrument })
    let st' :=
      match icElems.find? (fun e => e.1 == fraction) with
      | some (_, e) =>
        let st1 := stMap (removeICElem e.key st)
        { st1 with instrChanges := st1.instrChanges ++ [{ e with instr := instrument }] }
      | none =>
        match chordRestAt st fraction destinationPartId with
        | some cr =>
          let newElem : ICElem :=
            { key := st.nextKey, tick := cr.tick, partId := destinationPartId,
              instr := instrument }
          let st1 := stMap { st with nextKey := st.nextKey + 1 }
          { st1 with instrChanges := st1.instrChanges ++ [newElem] }
        | none => stMap st
    doInsertLoop destinationPartId icElems rest st'

/-- `NotationParts::doInsertInstruments(instruments, destinationPartId,
destinationInstrumentId, mode)`: splice the moved instruments into the
destination's value list at the destination instrument's index (Before /
After), extend the fraction list — a fraction already present appends the
current last fraction plus one instead —, sort the fractions, make the first
value the part's primary instrument, and assign every further (fraction,
value) pair, re-anchoring an existing `InstrumentChange` at that tick or
creating one at the chord/rest found there (an unresolvable anchor is logged
and the entry is left without one). -/
def doInsertInstruments (moving : List (Int × MsInstrument))
    (destinationPartId destinationInstrumentId : Nat) (mode : InsertMode)
    (s : NPState) : NPState :=
  match partLookupCur s destinationPartId with
  | none => s
  | some destinationPart =>
    let partInstrumentsMap := instrumentsOf destinationPart []
    let partInstrumentsFractions := partInstrumentsMap.map (fun e => e.1)
    let partInstruments := partInstrumentsMap.map (fun e => e.2)
    let destinationIndex :=
      match partInstruments.findIdx? (fun v => v.instrumentId == destinationInstrumentId) with
      | some i => i
      | none => 0
    let newInstrumentIndex :=
      match mode with
      | InsertMode.before => destinationIndex
      | InsertMode.after => destinationIndex + 1
    let vacc := (moving.map (fun e => e.2)).foldl
      (fun (acc : List MsInstrument × Nat) v => (listInsertIdx acc.1 acc.2 v, acc.2 + 1))
      (partInstruments, newInstrumentIndex)
    let partInstruments' := vacc.1
    let fracs' := (moving.map (fun e => e.1)).foldl
      (fun acc f => if acc.contains f then acc ++ [acc.getLastD 0 + 1] else acc ++ [f])
      partInstrumentsFractions
    let sortedFracs := sortTicks fracs'
    let s1 :=
      if 0 < sortedFracs.length then
        updatePart destinationPartId (fun p =>
          { p with instrumentsMap :=
              mapInsert p.instrumentsMap 0 (partInstruments'.headD ⟨0, ""⟩) }) s
      else s
    let icElems := instrumentChangeElements s1 destinationPartId
    let s2 := doInsertLoop destinationPartId icElems
      ((sortedFracs.zip partInstruments').drop 1) s1
    doSetPartNameSt destinationPartId s2

/-- `NotationParts::moveInstruments(...)`: silently return when either part
is missing; otherwise remove the moving instruments from the source part,
insert them into the destination, refresh both part names and fire the
part/instrument notifications. -/
def moveInstruments (sourceInstrumentsIds : List Nat)
    (sourcePartId destinationPartId destinationInstrumentId : Nat)
    (mode : InsertMode) (s : NPState) : NPState × List Event :=
  match partLookupCur s sourcePartId, partLookupCur s destinationPartId with
  | some fromPart, some toPart =>
    let movingInstruments := instrumentsOf fromPart sourceInstrumentsIds
    let s1 := doRemoveInstruments sourceInstrumentsIds fromPart.pid s
    let s2 := doInsertInstruments movingInstruments destinationPartId
      destinationInstrumentId mode s1
    let s3 := doSetPartNameSt fromPart.pid s2
    let s4 := if fromPart.pid ≠ toPart.pid then doSetPartNameSt toPart.pid s3 else s3
    let ev := [Event.partItemChanged fromPart.pid]
      ++ notifyAboutInstrumentsChangedEv s4 fromPart.pid
      ++ (if fromPart.pid ≠ toPart.pid then
            notifyAboutInstrumentsChangedEv s4 toPart.pid
              ++ [Event.partItemChanged toPart.pid]
          else [])
      ++ [Event.partsChanged]
    (s4, ev)
  | _, _ => (s, [])

/-- `NotationParts::moveStaves(sourceStavesIds, destinationStaffId, mode)`:
no-op on an empty id list or an unresolvable destination staff; otherwise
relocate the resolved staves to the destination staff's part-local index
(Before / After). -/
def moveStaves (sourceStavesIds : List Nat) (destinationStaffId : Nat)
    (mode : InsertMode) (s : NPState) : NPState × List Event :=
  if sourceStavesIds.isEmpty then (s, [])
  else
    match staffLookup s destinationStaffId with
    | none => (s, [])
    | some destinationStaff =>
      let staves := stavesByIds s sourceStavesIds
      let destinationPartPid := partPidOfStaffKey s destinationStaff.key
      let idx0 :=
        match mode with
        | InsertMode.before => staffGlobalIdx s destinationStaff.key
        | InsertMode.after => staffGlobalIdx s destinationStaff.key + 1
      let destinationStaffIndex := idx0 - staffIdxOfPart s destinationPartPid
      let s1 := doMoveStaves staves destinationStaffIndex (some destinationPartPid) s
      (s1, [Event.partsChanged])

/-- The `findMasterPartIndex` lambda of `NotationParts::resolvePartIndex`:
index of the part in the master's part list, `-1` when absent. -/
def findMasterPartIndex (s : NPState) (pid : Nat) : Int :=
  match (masterPartsOf s).findIdx? (fun p => p.pid == pid) with
  | some i => (i : Int)
  | none => -1

/-- `NotationParts::resolvePartIndex(part)`: index of the first current
part whose master index is not below the appended part's master index, or
the part count when every current part sits before it. -/
def resolvePartIndex (s : NPState) (part : MsPart) : Nat :=
  let originPartIndex := findMasterPartIndex s part.pid
  match s.parts.findIdx? (fun sp => !(findMasterPartIndex s sp.pid < originPartIndex)) with
  | some i => i
  | none => s.parts.length

/-- Clones of a staff list with fresh keys counting up from `k` (the staff
objects `doMoveStavesInsert` creates). -/
def clonesFrom (k : Nat) : List MsStaff → List MsStaff
  | [] => []
  | staff :: rest => { staff with key := k } :: clonesFrom (k + 1) rest

/-- The staff copy `appendPart` materializes: configuration of `staff`, a
fresh key, and the content restricted to the measure range. -/
def materializedStaff (meas : List Int) (k : Nat) (staff : MsStaff) : MsStaff :=
  { key := k, sid := staff.sid,
    content := staff.content.filter (fun e => meas.headD 0 ≤ e.1 && e.1 ≤ meas.getLastD 0),
    linked := staff.linked, small := staff.small }

/-- The staff list `appendPartLoop` builds: one materialized copy per
original staff, keys counting up from `k`. -/
def materializeAll (meas : List Int) (k : Nat) : List MsStaff → List MsStaff
  | [] => []
  | staff :: rest => materializedStaff meas k staff :: materializeAll meas (k + 1) rest

def appendPartLoop (targetPid : Nat) : List MsStaff → Nat → NPState → NPState
  | [], _, st => st
  | staff :: rest, staffIndex, st =>
    let staffCopy := materializedStaff st.measures st.nextKey staff
    let st1 := { st with nextKey := st.nextKey + 1 }
    let st2 := updatePart targetPid (fun p =>
      { p with staves := listInsertIdx p.staves staffIndex staffCopy }) st1
    appendPartLoop targetPid rest (staffIndex + 1) st2

/-- `NotationParts::appendPart(part)`: materialize a master-score part into
the current score: insert a staff-less copy at the resolved index, then for
each original staff insert a configured copy (same staff id, no content yet)
and clone the musical content over `[firstMeasure->tick(),
lastMeasure->tick()]` (`Excerpt::cloneStaff2`, Modelled from the spec:
cloning musical content from the first to the last measure). -/
def appendPart (part : MsPart) (s : NPState) : NPState × List Event :=
  let partCopy : MsPart := { part with staves := [] }
  let partIndex := resolvePartIndex s part
  let s1 := { s with parts := listInsertIdx s.parts partIndex partCopy }
  let s2 := appendPartLoop partCopy.pid part.staves 0 s1
  (s2, [Event.partItemChanged part.pid, Event.partsChanged])

/-- `NotationParts::setPartVisible(partId, visible)`: no-op when the part is
already in the requested state; a part not in the current score is
materialized from the master on a `true` toggle (silently nothing on
`false` or when the master does not know it either); otherwise an undoable
visibility property change plus the part notifications. -/
def setPartVisible (partId : Nat) (visible : Bool) (s : NPState) : NPState × List Event :=
  match partLookupCur s partId with
  | some part =>
    if part.showFlag == visible then (s, [])
    else
      let s1 := updatePart partId (fun p => { p with showFlag := visible }) s
      (s1, [Event.partItemChanged partId, Event.partsChanged])
  | none =>
    if !visible then (s, [])
    else
      match partLookupMaster s partId with
      | none => (s, [])
      | some part => appendPart part s

/-! ## Specification-side helper definitions -/

/-- The state fields that `setInstruments` and its helpers never touch. -/
def otherFieldsEq (s s' : NPState) : Prop :=
  s'.curIsMaster = s.curIsMaster ∧ s'.masterParts = s.masterParts ∧
  s'.excerpts = s.excerpts ∧ s'.measures = s.measures ∧
  s'.chordRests = s.chordRests ∧ s'.instrChanges = s.instrChanges ∧
  s'.selection = s.selection ∧ s'.errorFlag = s.errorFlag

/-- Well-formedness under which `setInstruments` is analysed: the current
score is the master with no excerpts, part ids are unique and below the
freshness counter, every part carries exactly one instrument entry at tick
0, the parts' main instrument ids are pairwise distinct, and the supplied
instrument ids are pairwise distinct. -/
def WFSetInstruments (s : NPState) (L : List Instrument) : Prop :=
  s.curIsMaster = true ∧ s.excerpts = [] ∧
  (s.parts.map MsPart.pid).Nodup ∧
  (∀ p ∈ s.parts, p.pid < s.nextKey) ∧
  (∀ p ∈ s.parts, p.instrumentsMap.map Prod.fst = [0]) ∧
  (s.parts.map mainInstrumentId).Nodup ∧
  (L.map Instrument.id).Nodup

instance (s : NPState) (L : List Instrument) : Decidable (WFSetInstruments s L) := by
  unfold WFSetInstruments
  infer_instance

/-- The normal form `setInstruments L` leaves behind: no excerpts, unique
part ids, single-instrument parts whose main ids match the supplied id list
positionally, and at least one measure. -/
def PostWF (s : NPState) (L : List Instrument) : Prop :=
  s.curIsMaster = true ∧ s.excerpts = [] ∧
  (s.parts.map MsPart.pid).Nodup ∧
  (∀ p ∈ s.parts, p.instrumentsMap.map Prod.fst = [0]) ∧
  s.parts.map mainInstrumentId = L.map Instrument.id ∧
  s.measures ≠ []

/-- Remove every staff whose object key occurs in `ks`. -/
def removeKeys (ks : List Nat) (l : List MsStaff) : List MsStaff :=
  l.filter (fun t => !(ks.contains t.key))

/-- The staff list produced by the insertion half of `doMoveStaves`: clones
of `src` (fresh keys counting up from `k`) inserted at consecutive indices
from `d`. -/
def insertClones (xs : List MsStaff) (d : Nat) (src : List MsStaff) (k : Nat) : List MsStaff :=
  match src with
  | [] => xs
  | st :: rest => insertClones (listInsertIdx xs d { st with key := k }) (d + 1) rest (k + 1)

/-- The main-instrument id as a function of the bare mapping (the part-level
`mainInstrumentId` factors through it). -/
def mainOfMap : List (Int × MsInstrument) → Nat
  | [] => 0
  | (_, i) :: _ => i.instrumentId

/-- The (part id, instrument mapping) view of a part: the data `setInstruments`
rearranges; part names and staves are invisible to it. -/
def pmSig (p : MsPart) : Nat × List (Int × MsInstrument) :=
  (p.pid, p.instrumentsMap)

/-- State similarity modulo staves, part names and bookkeeping: same
(pid, mapping) view of the part list, same master flag, excerpts and
measures, and a non-decreasing freshness counter. -/
def StableView (st st' : NPState) : Prop :=
  st'.parts.map pmSig = st.parts.map pmSig ∧ st'.curIsMaster = st.curIsMaster ∧
  st'.excerpts = st.excerpts ∧ st'.measures = st.measures ∧ st.nextKey ≤ st'.nextKey

/-! ## Example data for witnesses and counterexamples -/

/-- A master score with nothing in it. -/
def exEmpty : NPState :=
  { parts := [], curIsMaster := true, masterParts := [], excerpts := [], measures := [],
    chordRests := [], instrChanges := [], selection := none,
    errorFlag := MsError.MS_NO_ERROR, nextKey := 100 }

def exViolinMs : MsInstrument := { instrumentId := 10, trackName := "Violin" }

def exViolaMs : MsInstrument := { instrumentId := 11, trackName := "Viola" }

def exXMs : MsInstrument := { instrumentId := 12, trackName := "Xylophone" }

def exYMs : MsInstrument := { instrumentId := 13, trackName := "Yodel" }

def exViolinIn : Instrument := { id := 10, name := "Violin", staves := 1, smallStaff := [false] }

def exViolaIn : Instrument := { id := 11, name := "Viola", staves := 1, smallStaff := [false] }

/-- A one-part score: Violin only, one staff. -/
def exViolinPart : MsPart :=
  { pid := 1, partName := "Violin", instrumentsMap := [(0, exViolinMs)],
    staves := [{ key := 50, sid := 50, content := [], linked := false, small := false }],
    showFlag := true }

def exViolinState : NPState := { exEmpty with parts := [exViolinPart], measures := [0] }

/-- A part already carrying a doubling instrument (Violin at 0, Viola at 4). -/
def exDoublingPart : MsPart :=
  { pid := 1, partName := "Violin & Viola",
    instrumentsMap := [(0, exViolinMs), (4, exViolaMs)], staves := [], showFlag := true }

def exDoublingState : NPState := { exEmpty with parts := [exDoublingPart], measures := [0] }

/-- Source part for the instrument-move scenarios: main A, doubling X. -/
def exPartA : MsPart :=
  { pid := 1, partName := "A", instrumentsMap := [(0, exViolinMs), (10, exXMs)],
    staves := [], showFlag := true }

/-- Destination part for the instrument-move scenarios: main B, Y at tick
10 (the tick the moved X collides with). -/
def exPartB : MsPart :=
  { pid := 2, partName := "B", instrumentsMap := [(0, exViolaMs), (10, exYMs)],
    staves := [], showFlag := true }

def exMoveState : NPState := { exEmpty with parts := [exPartA, exPartB], measures := [0] }

/-- Selection sitting in part 2 while the instrument of interest belongs to
part 1. -/
def exSelState : NPState :=
  { exEmpty with
    parts := [exPartA, exPartB]
    selection := some { tick := 3, partId := 2, track := 0 } }

/-- Master part with two content-carrying staves, for materialization. -/
def exMasterPart : MsPart :=
  { pid := 7, partName := "Horn",
    instrumentsMap := [(0, exViolinMs)],
    staves := [{ key := 70, sid := 70, content := [(0, 1), (4, 2), (9, 3)], linked := false, small := false },
               { key := 71, sid := 71, content := [(2, 4)], linked := true, small := true }],
    showFlag := true }

/-- An excerpt view that does not contain master part 7 yet. -/
def exExcerptView : NPState :=
  { parts := [{ pid := 8, partName := "Flute", instrumentsMap := [(0, exViolaMs)],
                staves := [{ key := 80, sid := 80, content := [], linked := false, small := false }],
                showFlag := true }],
    curIsMaster := false,
    masterParts := [exMasterPart,
                    { pid := 8, partName := "Flute", instrumentsMap := [(0, exViolaMs)],
                      staves := [{ key := 81, sid := 80, content := [], linked := false, small := false }],
                      showFlag := true }],
    excerpts := [], measures := [0, 4], chordRests := [], instrChanges := [],
    selection := none, errorFlag := MsError.MS_NO_ERROR, nextKey := 100 }

/-- Two-part score for staff moves: part 1 holds staves 31/32 (with
content), part 2 holds staves 41/42. -/
def exStaffPartA : MsPart :=
  { pid := 1, partName := "A", instrumentsMap := [(0, exViolinMs)],
    staves := [{ key := 31, sid := 31, content := [(0, 5)], linked := false, small := false },
               { key := 32, sid := 32, content := [(4, 6)], linked := false, small := false }],
    showFlag := true }

def exStaffPartB : MsPart :=
  { pid := 2, partName := "B", instrumentsMap := [(0, exViolaMs)],
    staves := [{ key := 41, sid := 41, content := [(0, 7)], linked := false, small := false },
               { key := 42, sid := 42, content := [(4, 8)], linked := false, small := false }],
    showFlag := true }

def exStaffState : NPState :=
  { exEmpty with parts := [exStaffPartA, exStaffPartB], measures := [0] }

/-- A master score whose part list also shows up in an excerpt (same part
id 1), plus an excerpt-only part id 3. -/
def exExcerptDupState : NPState :=
  { exEmpty with
    parts := [exViolinPart],
    excerpts := [{ eparts := [{ exViolinPart with partName := "Violin (excerpt)" },
                              { pid := 3, partName := "Cello", instrumentsMap := [(0, exYMs)],
                                staves := [], showFlag := true }] }] }

/-! ## Theorems -/

/-- C10: after any call to the selection-query helper `selectedChord`, the
score-wide global error flag is never left equal to
`NO_NOTE_REST_SELECTED`: if querying the selection set that flag, the
helper resets it to `MS_NO_ERROR` before returning. -/
theorem selectedChord_clearsNoNoteRestSelected (s : NPState) :
    (selectedChord s).2.errorFlag ≠ MsError.NO_NOTE_REST_SELECTED := by
  unfold selectedChord
  by_cases h : (getSelectedChordRest s).2.errorFlag = MsError.NO_NOTE_REST_SELECTED
  · simp only [h, if_pos]
    intro hc
    exact MsError.noConfusion hc
  · simp only [if_neg h]
    exact h

/-- C2 (code bug witness): `setSmallStaff` on a staff id that resolves to
nothing evaluates `staff->staffType(DEFAULT_TICK)` on the null staff before
its own null check — modelled as the crash outcome `none`, contradicting
the claimed silent no-op. -/
theorem setSmallStaff_missingStaff_crashes :
    setSmallStaff 5 true exEmpty = none := rfl

theorem dedupByPidGo_sublist (seen : List Nat) (l : List MsPart) :
    (dedupByPidGo seen l).Sublist l := by
  induction l generalizing seen with
  | nil => exact List.Sublist.refl _
  | cons p rest ih =>
    unfold dedupByPidGo
    by_cases h : seen.contains p.pid
    · simp only [h, if_pos]
      exact (ih seen).cons p
    · simp only [h, if_neg, Bool.false_eq_true, not_false_eq_true]
      exact (ih (p.pid :: seen)).cons₂ p

theorem dedupByPidGo_firstSeen (seen : List Nat) (l : List MsPart) :
    ∀ q ∈ dedupByPidGo seen l,
      seen.contains q.pid = false ∧ l.find? (fun p => p.pid == q.pid) = some q := by
  induction l generalizing seen with
  | nil => intro q hq; exact absurd hq (by simp [dedupByPidGo])
  | cons p rest ih =>
    intro q hq
    unfold dedupByPidGo at hq
    by_cases h : seen.contains p.pid
    · simp only [h, if_pos] at hq
      obtain ⟨h1, h2⟩ := ih seen q hq
      have hne : (p.pid == q.pid) = false := by
        refine beq_eq_false_iff_ne.mpr ?_
        intro he
        rw [he] at h
        rw [h1] at h
        exact Bool.false_ne_true h
      refine ⟨h1, ?_⟩
      rw [List.find?_cons_of_neg _ (by simp [hne])]
      exact h2
    · replace h : seen.contains p.pid = false := by
        cases hb : seen.contains p.pid
        · rfl
        · exact absurd hb h
      simp only [h, Bool.false_eq_true, if_neg, not_false_eq_true] at hq
      rcases List.mem_cons.mp hq with hq | hq
      · subst hq
        exact ⟨h, by rw [List.find?_cons_of_pos _ (by simp)]⟩
      · obtain ⟨h1, h2⟩ := ih (p.pid :: seen) q hq
        have hne : q.pid ≠ p.pid := by
          intro he
          simp [List.contains_cons, he] at h1
        refine ⟨?_, ?_⟩
        · simp only [List.contains_cons, Bool.or_eq_false_iff] at h1
          exact h1.2
        · rw [List.find?_cons_of_neg _ (by simp only [beq_iff_eq]; exact fun hx => hne hx.symm)]
          exact h2

theorem dedupByPidGo_nodup (seen : List Nat) (l : List MsPart) :
    ((dedupByPidGo seen l).map MsPart.pid).Nodup := by
  induction l generalizing seen with
  | nil => simp [dedupByPidGo]
  | cons p rest ih =>
    unfold dedupByPidGo
    by_cases h : seen.contains p.pid
    · simp only [h, if_pos]
      exact ih seen
    · replace h : seen.contains p.pid = false := by
        cases hb : seen.contains p.pid
        · rfl
        · exact absurd hb h
      simp only [h, Bool.false_eq_true, if_neg, not_false_eq_true, List.map_cons]
      refine List.nodup_cons.mpr ⟨?_, ih (p.pid :: seen)⟩
      intro hmem
      obtain ⟨q, hq, hqe⟩ := List.mem_map.mp hmem
      obtain ⟨h1, _⟩ := dedupByPidGo_firstSeen (p.pid :: seen) rest q hq
      simp [List.contains_cons, hqe] at h1

theorem dedupByPidGo_covers (seen : List Nat) (l : List MsPart) :
    ∀ p ∈ l, seen.contains p.pid = true ∨ ∃ q ∈ dedupByPidGo seen l, q.pid = p.pid := by
  induction l generalizing seen with
  | nil => intro p hp; exact absurd hp (List.not_mem_nil p)
  | cons a rest ih =>
    intro p hp
    unfold dedupByPidGo
    by_cases h : seen.contains a.pid
    · simp only [h, if_pos]
      rcases List.mem_cons.mp hp with hp | hp
      · rw [hp]; exact Or.inl h
      · exact ih seen p hp
    · replace h : seen.contains a.pid = false := by
        cases hb : seen.contains a.pid
        · rfl
        · exact absurd hb h
      simp only [h, Bool.false_eq_true, if_neg, not_false_eq_true]
      rcases List.mem_cons.mp hp with hp | hp
      · exact Or.inr ⟨a, List.mem_cons_self _ _, by rw [hp]⟩
      · rcases ih (a.pid :: seen) p hp with hc | ⟨q, hq, hqe⟩
        · simp only [List.contains_cons, Bool.or_eq_true, beq_iff_eq] at hc
          rcases hc with hc | hc
          · exact Or.inr ⟨a, List.mem_cons_self _ _, hc.symm⟩
          · exact Or.inl hc
        · exact Or.inr ⟨q, List.mem_cons_of_mem _ hq, hqe⟩

/-- C3: `partList()` never returns two entries with the same part id, even
when the same part is reachable via both the master score and an excerpt;
the listing is an order-preserving sub-sequence of the raw available-part
walk, keeps the first occurrence of each id, and loses no id. -/
theorem partList_dedupByIdFirstSeen (s : NPState) :
    ((partListParts s).map MsPart.pid).Nodup
    ∧ (partListParts s).Sublist (availablePartsCur s)
    ∧ (∀ p ∈ availablePartsCur s, ∃ q ∈ partListParts s, q.pid = p.pid)
    ∧ (∀ q ∈ partListParts s,
        (availablePartsCur s).find? (fun p => p.pid == q.pid) = some q) := by
  refine ⟨dedupByPidGo_nodup [] _, dedupByPidGo_sublist [] _, ?_, ?_⟩
  · intro p hp
    rcases dedupByPidGo_covers [] (availablePartsCur s) p hp with hc | h
    · exact absurd hc (by simp)
    · exact h
  · intro q hq
    exact (dedupByPidGo_firstSeen [] (availablePartsCur s) q hq).2

/-- C3 witness: in a state where part id 1 lives in the master score and in
an excerpt, and id 3 only in the excerpt, the listing still covers id 3. -/
theorem partList_dedup_witness :
    ∃ q ∈ partListParts exExcerptDupState, q.pid = 3 :=
  (partList_dedupByIdFirstSeen exExcerptDupState).2.2.1
    { pid := 3, partName := "Cello", instrumentsMap := [(0, exYMs)],
      staves := [], showFlag := true }
    (by decide)

theorem instrumentsOf_noFilter (p : MsPart) : instrumentsOf p [] = p.instrumentsMap := by
  simp [instrumentsOf]

theorem foldl_max_init_le (l : List (Int × MsInstrument)) (a : Int) :
    a ≤ l.foldl (fun acc e => max e.1 acc) a := by
  induction l generalizing a with
  | nil => exact le_refl a
  | cons e t ih => exact le_trans (le_max_right e.1 a) (ih (max e.1 a))

theorem foldl_max_mem_le (l : List (Int × MsInstrument)) (a : Int) :
    ∀ e ∈ l, e.1 ≤ l.foldl (fun acc e => max e.1 acc) a := by
  induction l generalizing a with
  | nil => intro e he; exact absurd he (List.not_mem_nil e)
  | cons x t ih =>
    intro e he
    rcases List.mem_cons.mp he with he | he
    · rw [he]
      exact le_trans (le_max_left x.1 a) (foldl_max_init_le t (max x.1 a))
    · exact ih (max x.1 a) e he

theorem foldl_max_cases (l : List (Int × MsInstrument)) (a : Int) :
    l.foldl (fun acc e => max e.1 acc) a = a
    ∨ ∃ e ∈ l, l.foldl (fun acc e => max e.1 acc) a = e.1 := by
  induction l generalizing a with
  | nil => exact Or.inl rfl
  | cons x t ih =>
    rcases ih (max x.1 a) with h | ⟨e, he, hee⟩
    · rcases max_choice x.1 a with hm | hm
      · exact Or.inr ⟨x, List.mem_cons_self _ _, by rw [List.foldl_cons, h]; exact hm⟩
      · exact Or.inl (by rw [List.foldl_cons, h]; exact hm)
    · exact Or.inr ⟨e, List.mem_cons_of_mem _ he, by rw [List.foldl_cons]; exact hee⟩

theorem mapInsert_cons (x : Int × MsInstrument) (rest : List (Int × MsInstrument))
    (t : Int) (i : MsInstrument) :
    mapInsert (x :: rest) t i =
      if t < x.1 then (t, i) :: x :: rest
      else if t = x.1 then (t, i) :: rest
      else x :: mapInsert rest t i := by
  obtain ⟨t0, i0⟩ := x
  rfl

theorem mapInsert_fresh_length (m : List (Int × MsInstrument)) (t : Int) (i : MsInstrument)
    (h : ∀ e ∈ m, e.1 ≠ t) : (mapInsert m t i).length = m.length + 1 := by
  induction m with
  | nil => rfl
  | cons x rest ih =>
    rw [mapInsert_cons]
    by_cases h1 : t < x.1
    · rw [if_pos h1]; rfl
    · have h2 : ¬ t = x.1 := fun he => (h x (List.mem_cons_self _ _)) he.symm
      rw [if_neg h1, if_neg h2, List.length_cons, List.length_cons,
        ih (fun e he => h e (List.mem_cons_of_mem _ he))]

theorem mapInsert_mem_self (m : List (Int × MsInstrument)) (t : Int) (i : MsInstrument) :
    (t, i) ∈ mapInsert m t i := by
  induction m with
  | nil => exact List.mem_singleton.mpr rfl
  | cons x rest ih =>
    rw [mapInsert_cons]
    by_cases h1 : t < x.1
    · rw [if_pos h1]; exact List.mem_cons_self _ _
    · by_cases h2 : t = x.1
      · rw [if_neg h1, if_pos h2]; exact List.mem_cons_self _ _
      · rw [if_neg h1, if_neg h2]
        exact List.mem_cons_of_mem _ ih

theorem mapInsert_mem_of_ne (m : List (Int × MsInstrument)) (t : Int) (i : MsInstrument)
    (e : Int × MsInstrument) (he : e ∈ m) (hne : e.1 ≠ t) : e ∈ mapInsert m t i := by
  induction m with
  | nil => exact absurd he (List.not_mem_nil e)
  | cons x rest ih =>
    rw [mapInsert_cons]
    by_cases h1 : t < x.1
    · rw [if_pos h1]
      exact List.mem_cons_of_mem _ he
    · by_cases h2 : t = x.1
      · rw [if_neg h1, if_pos h2]
        rcases List.mem_cons.mp he with h3 | h3
        · exact absurd (by rw [h3, h2]) hne
        · exact List.mem_cons_of_mem _ h3
      · rw [if_neg h1, if_neg h2]
        rcases List.mem_cons.mp he with h3 | h3
        · rw [h3]; exact List.mem_cons_self _ _
        · exact List.mem_cons_of_mem _ (ih h3)

theorem updatePart_mem (pid : Nat) (f : MsPart → MsPart) (s : NPState) (p : MsPart)
    (hp : p ∈ s.parts) (hpid : p.pid = pid) : f p ∈ (updatePart pid f s).parts := by
  unfold updatePart
  have := List.mem_map_of_mem (fun q => if q.pid = pid then f q else q) hp
  simpa [hpid] using this

/-- C4 amended: on an existing part, `appendDoublingInstrument` adds exactly
one new entry, at tick `max(1, largest existing tick) + 1`; that tick is
strictly greater than every previously existing tick (and hence at least
2 — it equals "largest existing tick + 1" only when some tick is at least
1). -/
theorem appendDoublingInstrument_spec (instrument : Instrument) (pid : Nat) (s : NPState)
    (part : MsPart) (h1 : partLookupCur s pid = some part)
    (h3 : part ∈ s.parts) :
    ∃ part' newTick,
      part' ∈ (appendDoublingInstrument instrument pid s).1.parts ∧
      part'.pid = part.pid ∧
      part'.instrumentsMap.length = part.instrumentsMap.length + 1 ∧
      (newTick, convertInstrument instrument) ∈ part'.instrumentsMap ∧
      (∀ e ∈ part.instrumentsMap, e ∈ part'.instrumentsMap) ∧
      (∀ e ∈ part.instrumentsMap, e.1 < newTick) ∧
      2 ≤ newTick ∧
      (newTick = 2 ∨ ∃ e ∈ part.instrumentsMap, newTick = e.1 + 1) := by
  unfold appendDoublingInstrument
  rw [h1]
  set lastTick := (instrumentsOf part []).foldl (fun acc e => max e.1 acc) 1 with hlt
  rw [instrumentsOf_noFilter] at hlt
  set M := mapInsert part.instrumentsMap (lastTick + 1) (convertInstrument instrument) with hM
  have hgt : ∀ e ∈ part.instrumentsMap, e.1 < lastTick + 1 := by
    intro e he
    have := foldl_max_mem_le part.instrumentsMap 1 e he
    rw [← hlt] at this
    omega
  have hone : (1 : Int) ≤ lastTick := by
    have := foldl_max_init_le part.instrumentsMap 1
    rw [← hlt] at this
    exact this
  set s1 := updatePart part.pid
    (fun p => { p with instrumentsMap := mapInsert p.instrumentsMap (lastTick + 1) (convertInstrument instrument) }) s with hs1
  have hmem1 : ({ part with instrumentsMap := M } : MsPart) ∈ s1.parts := by
    rw [hs1, hM]
    exact updatePart_mem part.pid _ s part h3 rfl
  set s2 := doSetPartNameSt part.pid s1 with hs2
  have hmem2 : ({ part with instrumentsMap := M, partName := formatPartNameSt s1 part.pid } : MsPart) ∈ s2.parts := by
    rw [hs2]
    unfold doSetPartNameSt
    exact updatePart_mem part.pid _ s1 _ hmem1 rfl
  refine ⟨{ part with instrumentsMap := M, partName := formatPartNameSt s1 part.pid },
    lastTick + 1, hmem2, rfl, ?_, ?_, ?_, hgt, by omega, ?_⟩
  · exact mapInsert_fresh_length _ _ _ (fun e he => ne_of_lt (hgt e he))
  · exact mapInsert_mem_self _ _ _
  · exact fun e he => mapInsert_mem_of_ne _ _ _ e he (ne_of_lt (hgt e he))
  · rcases foldl_max_cases part.instrumentsMap 1 with h | ⟨e, he, hee⟩
    · rw [← hlt] at h
      exact Or.inl (by omega)
    · rw [← hlt] at hee
      exact Or.inr ⟨e, he, by omega⟩

/-- C4 amended witness: appending a Viola to the Violin-only part puts the
new entry at tick 2 with every claimed property. -/
theorem appendDoublingInstrument_spec_witness :
    ∃ part' newTick,
      part' ∈ (appendDoublingInstrument exViolaIn 1 exViolinState).1.parts ∧
      part'.pid = exViolinPart.pid ∧
      part'.instrumentsMap.length = exViolinPart.instrumentsMap.length + 1 ∧
      (newTick, convertInstrument exViolaIn) ∈ part'.instrumentsMap ∧
      (∀ e ∈ exViolinPart.instrumentsMap, e ∈ part'.instrumentsMap) ∧
      (∀ e ∈ exViolinPart.instrumentsMap, e.1 < newTick) ∧
      2 ≤ newTick ∧
      (newTick = 2 ∨ ∃ e ∈ exViolinPart.instrumentsMap, newTick = e.1 + 1) :=
  appendDoublingInstrument_spec exViolaIn 1 exViolinState exViolinPart (by decide) (by decide)

/-- C4 counterexample: with only the tick-0 Violin present, the maximum
existing tick is 0, yet the new Viola entry lands at tick 2, not at
0 + 1 = 1 (no entry at tick 1 exists afterwards). -/
theorem appendDoublingInstrument_counterexample :
    ((appendDoublingInstrument exViolaIn 1 exViolinState).1.parts.map MsPart.instrumentsMap
      = [[(0, exViolinMs), (2, exViolaMs)]])
    ∧ (∀ p ∈ (appendDoublingInstrument exViolaIn 1 exViolinState).1.parts,
        ∀ e ∈ p.instrumentsMap, e.1 ≠ 0 + 1) := by
  constructor
  · rfl
  · decide

/-- C5 counterexample: the target instrument X belongs to part 1, the
selected chord belongs to part 2 — yet the call does not fail silently: it
inserts X into part 2's mapping at the chord's tick (part 1 keeps X), adds
an `InstrumentChange` and fires notifications. -/
theorem assignIstrument_counterexample :
    ((assignIstrumentToSelectedChord exXMs exSelState).1.parts.map MsPart.instrumentsMap
      = [[(0, exViolinMs), (10, exXMs)],
         [(0, exViolaMs), (3, exXMs), (10, exYMs)]])
    ∧ (assignIstrumentToSelectedChord exXMs exSelState).2 ≠ [] := by
  constructor
  · rfl
  · decide

/-- C5 amended: `assignIstrumentToSelectedChord` fails silently (no
structural mutation, no notification) exactly when there is no selected
chord/rest; the selection's part is never compared with the target
instrument's part — on any selection the call removes the instrument id
from the *selected chord's* part, re-inserts the instrument there anchored
at the chord's tick, creates the anchoring `InstrumentChange`, and fires
the instrument/part notifications. -/
theorem assignIstrument_spec (instrument : MsInstrument) (s : NPState) :
    (s.selection = none →
      (assignIstrumentToSelectedChord instrument s).1.parts = s.parts
      ∧ (assignIstrumentToSelectedChord instrument s).1.instrChanges = s.instrChanges
      ∧ (assignIstrumentToSelectedChord instrument s).2 = [])
    ∧ (∀ c, s.selection = some c → ∀ p ∈ s.parts, p.pid = c.partId →
        ({ p with instrumentsMap := mapInsert (removeInstrumentFromMap p.instrumentsMap instrument.instrumentId) c.tick instrument } : MsPart)
            ∈ (assignIstrumentToSelectedChord instrument s).1.parts
        ∧ (∃ e ∈ (assignIstrumentToSelectedChord instrument s).1.instrChanges,
            e.tick = c.tick ∧ e.partId = c.partId ∧ e.instr = instrument)
        ∧ (assignIstrumentToSelectedChord instrument s).2
            = [Event.instrItemChanged c.partId instrument.instrumentId, Event.partsChanged]) := by
  constructor
  · intro h
    simp [assignIstrumentToSelectedChord, selectedChord, getSelectedChordRest, h]
  · intro c hc p hp hpid
    obtain ⟨s', hEq, h2⟩ : ∃ s', selectedChord s = (some c, s') ∧ s'.parts = s.parts := by
      by_cases hf : s.errorFlag = MsError.NO_NOTE_REST_SELECTED
      · refine ⟨{ s with errorFlag := MsError.MS_NO_ERROR }, ?_, rfl⟩
        simp [selectedChord, getSelectedChordRest, hc, hf]
      · refine ⟨s, ?_, rfl⟩
        simp [selectedChord, getSelectedChordRest, hc, hf]
    unfold assignIstrumentToSelectedChord
    rw [hEq]
    dsimp only
    refine ⟨?_, ?_, rfl⟩
    · have hp2 : p ∈ s'.parts := by rw [h2]; exact hp
      exact updatePart_mem c.partId _ s' p hp2 hpid
    · refine ⟨_, List.mem_append_right _ (List.mem_singleton.mpr rfl), rfl, rfl, rfl⟩

theorem listInsertIdx_eq_take_drop {α : Type} (xs : List α) (i : Nat) (a : α) :
    listInsertIdx xs i a = xs.take i ++ a :: xs.drop i := by
  induction xs generalizing i with
  | nil =>
    cases i with
    | zero => rfl
    | succ n => rfl
  | cons x xs ih =>
    cases i with
    | zero => rfl
    | succ n =>
      show x :: listInsertIdx xs n a = x :: (xs.take n ++ a :: xs.drop n)
      rw [ih n]

theorem listInsertIdx_of_length_le {α : Type} (xs : List α) (i : Nat) (a : α)
    (h : xs.length ≤ i) : listInsertIdx xs i a = xs ++ [a] := by
  rw [listInsertIdx_eq_take_drop, List.take_of_length_le h, List.drop_of_length_le h]

theorem map_keep_of_pid_ne (t : Nat) (f : MsPart → MsPart) :
    ∀ l : List MsPart, (∀ p ∈ l, p.pid ≠ t) →
      l.map (fun p => if p.pid = t then f p else p) = l := by
  intro l
  induction l with
  | nil => intro _; rfl
  | cons x xs ih =>
    intro h
    rw [List.map_cons, if_neg (h x (List.mem_cons_self _ _)),
      ih (fun p hp => h p (List.mem_cons_of_mem _ hp))]

theorem updatePart_split (t : Nat) (f : MsPart → MsPart) (s : NPState)
    (pre post : List MsPart) (pc : MsPart)
    (h : s.parts = pre ++ pc :: post) (hpc : pc.pid = t)
    (hpre : ∀ p ∈ pre, p.pid ≠ t) (hpost : ∀ p ∈ post, p.pid ≠ t) :
    (updatePart t f s).parts = pre ++ f pc :: post := by
  show (s.parts.map (fun p => if p.pid = t then f p else p)) = pre ++ f pc :: post
  rw [h, List.map_append, List.map_cons, if_pos hpc,
    map_keep_of_pid_ne t f pre hpre, map_keep_of_pid_ne t f post hpost]

theorem materializeAll_map_sid (meas : List Int) (k : Nat) (l : List MsStaff) :
    (materializeAll meas k l).map MsStaff.sid = l.map MsStaff.sid := by
  induction l generalizing k with
  | nil => rfl
  | cons staff rest ih =>
    show staff.sid :: (materializeAll meas (k + 1) rest).map MsStaff.sid = _
    rw [ih (k + 1)]
    rfl

theorem materializeAll_map_content (meas : List Int) (k : Nat) (l : List MsStaff) :
    (materializeAll meas k l).map MsStaff.content
      = l.map (fun st => st.content.filter (fun e => meas.headD 0 ≤ e.1 && e.1 ≤ meas.getLastD 0)) := by
  induction l generalizing k with
  | nil => rfl
  | cons staff rest ih =>
    show (staff.content.filter _) :: (materializeAll meas (k + 1) rest).map MsStaff.content = _
    rw [ih (k + 1)]
    rfl

theorem materializeAll_length (meas : List Int) (k : Nat) (l : List MsStaff) :
    (materializeAll meas k l).length = l.length := by
  induction l generalizing k with
  | nil => rfl
  | cons staff rest ih =>
    show (materializeAll meas (k + 1) rest).length + 1 = rest.length + 1
    rw [ih (k + 1)]

theorem appendPartLoop_spec (targetPid : Nat) (staves : List MsStaff) :
    ∀ (st : NPState) (i : Nat) (pre post : List MsPart) (pc : MsPart),
      st.parts = pre ++ pc :: post →
      pc.pid = targetPid →
      (∀ p ∈ pre, p.pid ≠ targetPid) → (∀ p ∈ post, p.pid ≠ targetPid) →
      pc.staves.length = i →
      ∃ pc', (appendPartLoop targetPid staves i st).parts = pre ++ pc' :: post
        ∧ (appendPartLoop targetPid staves i st).measures = st.measures
        ∧ pc'.pid = pc.pid ∧ pc'.partName = pc.partName
        ∧ pc'.instrumentsMap = pc.instrumentsMap ∧ pc'.showFlag = pc.showFlag
        ∧ pc'.staves = pc.staves ++ materializeAll st.measures st.nextKey staves := by
  induction staves with
  | nil =>
    intro st i pre post pc hparts hpid hpre hpost hlen
    exact ⟨pc, hparts, rfl, rfl, rfl, rfl, rfl, by simp [materializeAll]⟩
  | cons staff rest ih =>
    intro st i pre post pc hparts hpid hpre hpost hlen
    have h2 : (updatePart targetPid
        (fun p => { p with staves := listInsertIdx p.staves i (materializedStaff st.measures st.nextKey staff) })
        { st with nextKey := st.nextKey + 1 }).parts
        = pre ++ ({ pc with staves := pc.staves ++ [materializedStaff st.measures st.nextKey staff] } : MsPart) :: post := by
      have e1 := updatePart_split targetPid
        (fun p => { p with staves := listInsertIdx p.staves i (materializedStaff st.measures st.nextKey staff) })
        { st with nextKey := st.nextKey + 1 } pre post pc hparts hpid hpre hpost
      rw [e1]
      show pre ++ ({ pc with staves := listInsertIdx pc.staves i (materializedStaff st.measures st.nextKey staff) } : MsPart) :: post = _
      rw [listInsertIdx_of_length_le pc.staves i _ (le_of_eq hlen)]
    obtain ⟨pc', hp1, hp2, hp3, hp4, hp5, hp6, hp7⟩ :=
      ih (updatePart targetPid
            (fun p => { p with staves := listInsertIdx p.staves i (materializedStaff st.measures st.nextKey staff) })
            { st with nextKey := st.nextKey + 1 })
        (i + 1) pre post
        ({ pc with staves := pc.staves ++ [materializedStaff st.measures st.nextKey staff] })
        h2 hpid hpre hpost (by simp [hlen])
    refine ⟨pc', hp1, hp2, hp3, hp4, hp5, hp6, ?_⟩
    rw [hp7]
    show pc.staves ++ [materializedStaff st.measures st.nextKey staff]
        ++ materializeAll st.measures (st.nextKey + 1) rest
      = pc.staves ++ materializeAll st.measures st.nextKey (staff :: rest)
    rw [List.append_assoc]
    rfl

/-- C9: `setPartVisible(partId, true)` on a part that exists only in the
master score materializes it: the result's part list is the old one with
one new part spliced in, carrying the master part's id and instrument
mapping, and one staff copy per master staff — same staff ids, musical
content cloned over the range from the first measure to the last
measure. -/
theorem setPartVisible_materializes (s : NPState) (pid : Nat) (P : MsPart)
    (h1 : s.curIsMaster = false)
    (h2 : ∀ p ∈ s.parts, p.pid ≠ pid)
    (h3 : partLookupMaster s pid = some P) :
    ∃ pre post pc,
      (setPartVisible pid true s).1.parts = pre ++ pc :: post
      ∧ pre ++ post = s.parts
      ∧ pc.pid = P.pid ∧ pc.instrumentsMap = P.instrumentsMap
      ∧ pc.staves.length = P.staves.length
      ∧ pc.staves.map MsStaff.sid = P.staves.map MsStaff.sid
      ∧ pc.staves.map MsStaff.content
          = P.staves.map (fun st =>
              st.content.filter (fun e => s.measures.headD 0 ≤ e.1 && e.1 ≤ s.measures.getLastD 0)) := by
  have hPpid : P.pid = pid := by
    have := List.find?_some h3
    simpa using this
  have hcur : partLookupCur s pid = none := by
    unfold partLookupCur availablePartsCur
    rw [h1]
    refine List.find?_eq_none.mpr ?_
    intro p hp
    simp only [List.mem_append] at hp
    rcases hp with hp | hp
    · simp [h2 p hp]
    · simp at hp
  unfold setPartVisible
  rw [hcur, h3]
  show ∃ pre post pc, (appendPart P s).1.parts = pre ++ pc :: post ∧ _
  unfold appendPart
  set partCopy : MsPart := { P with staves := [] } with hpc
  set partIndex := resolvePartIndex s P with hpi
  set s1 : NPState := { s with parts := listInsertIdx s.parts partIndex partCopy } with hs1
  have hsplit : s1.parts = s.parts.take partIndex ++ partCopy :: s.parts.drop partIndex := by
    rw [hs1]
    exact listInsertIdx_eq_take_drop _ _ _
  obtain ⟨pc', hp1, _, hp3, _, hp5, _, hp7⟩ :=
    appendPartLoop_spec partCopy.pid P.staves s1 0
      (s.parts.take partIndex) (s.parts.drop partIndex) partCopy hsplit rfl
      (fun p hp => by
        have := h2 p (List.take_subset _ _ hp)
        simpa [hpc, hPpid] using this)
      (fun p hp => by
        have := h2 p (List.drop_subset _ _ hp)
        simpa [hpc, hPpid] using this)
      rfl
  refine ⟨s.parts.take partIndex, s.parts.drop partIndex, pc', hp1,
    List.take_append_drop _ _, ?_, ?_, ?_, ?_, ?_⟩
  · rw [hp3]
  · rw [hp5]
  · rw [hp7]
    show (materializeAll s1.measures s1.nextKey P.staves).length = _
    exact materializeAll_length _ _ _
  · rw [hp7]
    show (materializeAll s1.measures s1.nextKey P.staves).map MsStaff.sid = _
    exact materializeAll_map_sid _ _ _
  · rw [hp7]
    show (materializeAll s1.measures s1.nextKey P.staves).map MsStaff.content = _
    exact materializeAll_map_content _ _ _

/-- C9 witness: materializing master part 7 into the excerpt view clones
both staves, restricting content to the measure range [0, 4]. -/
theorem setPartVisible_materializes_witness :
    ∃ pre post pc,
      (setPartVisible 7 true exExcerptView).1.parts = pre ++ pc :: post
      ∧ pre ++ post = exExcerptView.parts
      ∧ pc.pid = exMasterPart.pid ∧ pc.instrumentsMap = exMasterPart.instrumentsMap
      ∧ pc.staves.length = exMasterPart.staves.length
      ∧ pc.staves.map MsStaff.sid = exMasterPart.staves.map MsStaff.sid
      ∧ pc.staves.map MsStaff.content
          = exMasterPart.staves.map (fun st =>
              st.content.filter (fun e =>
                exExcerptView.measures.headD 0 ≤ e.1
                  && e.1 ≤ exExcerptView.measures.getLastD 0)) :=
  setPartVisible_materializes exExcerptView 7 exMasterPart rfl (by decide) (by decide)

/-- C5 amended witness: with the selection in part 2, applying the theorem
at the concrete state shows part 2 receiving instrument X at tick 3. -/
theorem assignIstrument_spec_witness :
    ({ exPartB with instrumentsMap := mapInsert (removeInstrumentFromMap exPartB.instrumentsMap exXMs.instrumentId) (3 : Int) exXMs } : MsPart)
        ∈ (assignIstrumentToSelectedChord exXMs exSelState).1.parts
    ∧ (∃ e ∈ (assignIstrumentToSelectedChord exXMs exSelState).1.instrChanges,
        e.tick = (3 : Int) ∧ e.partId = 2 ∧ e.instr = exXMs)
    ∧ (assignIstrumentToSelectedChord exXMs exSelState).2
        = [Event.instrItemChanged 2 exXMs.instrumentId, Event.partsChanged] :=
  (assignIstrument_spec exXMs exSelState).2 { tick := 3, partId := 2, track := 0 } rfl
    exPartB (by decide) rfl

theorem findIdx_append_not {α : Type} (p : α → Bool) (l1 l2 : List α)
    (h : ∀ x ∈ l1, p x = false) :
    (l1 ++ l2).findIdx p = l1.length + l2.findIdx p := by
  induction l1 with
  | nil => simp
  | cons x xs ih =>
    rw [List.cons_append, List.findIdx_cons, h x (List.mem_cons_self _ _), Bool.cond_false,
      ih (fun y hy => h y (List.mem_cons_of_mem _ hy))]
    simp only [List.length_cons]
    omega

theorem find?_append_not {α : Type} (p : α → Bool) (l1 l2 : List α)
    (h : ∀ x ∈ l1, p x = false) :
    (l1 ++ l2).find? p = l2.find? p := by
  rw [List.find?_append]
  have h1 : l1.find? p = none := List.find?_eq_none.mpr (fun x hx => by simp [h x hx])
  rw [h1]
  rfl

theorem takeWhile_append_cons {α : Type} (q : α → Bool) (pre : List α) (b : α) (post : List α)
    (h1 : ∀ x ∈ pre, q x = true) (h2 : q b = false) :
    (pre ++ b :: post).takeWhile q = pre := by
  induction pre with
  | nil => simp [List.takeWhile_cons, h2]
  | cons x xs ih =>
    rw [List.cons_append, List.takeWhile_cons, h1 x (List.mem_cons_self _ _)]
    rw [ih (fun y hy => h1 y (List.mem_cons_of_mem _ hy))]
    simp

theorem foldl_add_staffLengths (l : List MsPart) :
    ∀ acc : Nat, ((l.map (fun p => p.staves.length)).foldl (· + ·) acc)
      = acc + (l.flatMap MsPart.staves).length := by
  induction l with
  | nil => intro acc; simp
  | cons x xs ih =>
    intro acc
    rw [List.map_cons, List.foldl_cons, ih (acc + x.staves.length)]
    simp [List.flatMap_cons]
    omega

theorem staves_sublist_flatMap (l : List MsPart) (A : MsPart) (h : A ∈ l) :
    A.staves.Sublist (l.flatMap MsPart.staves) := by
  induction l with
  | nil => exact absurd h (List.not_mem_nil A)
  | cons x xs ih =>
    rw [List.flatMap_cons]
    rcases List.mem_cons.mp h with h | h
    · rw [h]
      exact List.sublist_append_left _ _
    · exact (ih h).trans (List.sublist_append_right _ _)

theorem clonesFrom_map_content (k : Nat) (S : List MsStaff) :
    (clonesFrom k S).map MsStaff.content = S.map MsStaff.content := by
  induction S generalizing k with
  | nil => rfl
  | cons staff rest ih =>
    show staff.content :: (clonesFrom (k + 1) rest).map MsStaff.content = _
    rw [ih (k + 1)]
    rfl

theorem clonesFrom_length (k : Nat) (S : List MsStaff) :
    (clonesFrom k S).length = S.length := by
  induction S generalizing k with
  | nil => rfl
  | cons staff rest ih =>
    show (clonesFrom (k + 1) rest).length + 1 = rest.length + 1
    rw [ih (k + 1)]

theorem clonesFrom_key_ge (k : Nat) (S : List MsStaff) :
    ∀ t ∈ clonesFrom k S, k ≤ t.key := by
  induction S generalizing k with
  | nil => intro t ht; exact absurd ht (List.not_mem_nil t)
  | cons staff rest ih =>
    intro t ht
    rcases List.mem_cons.mp ht with ht | ht
    · rw [ht]
    · exact le_trans (Nat.le_succ k) (ih (k + 1) t ht)


theorem insertClones_take_drop (S : List MsStaff) :
    ∀ (xs : List MsStaff) (d k : Nat), d ≤ xs.length →
      insertClones xs d S k = xs.take d ++ clonesFrom k S ++ xs.drop d := by
  induction S with
  | nil =>
    intro xs d k _
    show xs = xs.take d ++ [] ++ xs.drop d
    rw [List.append_nil, List.take_append_drop]
  | cons staff rest ih =>
    intro xs d k hd
    show insertClones (listInsertIdx xs d { staff with key := k }) (d + 1) rest (k + 1) = _
    rw [listInsertIdx_eq_take_drop]
    have hlen : (xs.take d ++ { staff with key := k } :: xs.drop d).length = xs.length + 1 := by
      simp
      try omega
    rw [ih (xs.take d ++ { staff with key := k } :: xs.drop d) (d + 1) (k + 1) (by omega)]
    have htk : (xs.take d ++ { staff with key := k } :: xs.drop d).take (d + 1)
        = xs.take d ++ [{ staff with key := k }] := by
      rw [List.take_append_eq_append_take, List.take_of_length_le (by simp; try omega)]
      congr 1
      have h5 : d + 1 - (xs.take d).length = 1 := by
        simp
        try omega
      rw [h5]
      rfl
    have hdr : (xs.take d ++ { staff with key := k } :: xs.drop d).drop (d + 1) = xs.drop d := by
      rw [List.drop_append_eq_append_drop, List.drop_of_length_le (by simp; try omega)]
      have h6 : d + 1 - (xs.take d).length = 1 := by
        simp
        try omega
      rw [h6]
      rfl
    rw [htk, hdr]
    show xs.take d ++ [{ staff with key := k }] ++ clonesFrom (k + 1) rest ++ xs.drop d
      = xs.take d ++ ({ staff with key := k } :: clonesFrom (k + 1) rest) ++ xs.drop d
    rw [List.append_assoc (xs.take d), List.singleton_append]

theorem doMoveStavesInsert_spec (bpid : Nat) (S : List MsStaff) :
    ∀ (st : NPState) (d : Nat) (pre post : List MsPart) (B : MsPart),
      st.parts = pre ++ B :: post → B.pid = bpid →
      (∀ p ∈ pre, p.pid ≠ bpid) → (∀ p ∈ post, p.pid ≠ bpid) →
      (doMoveStavesInsert (some bpid) S d st).parts
        = pre ++ ({ B with staves := insertClones B.staves d S st.nextKey } : MsPart) :: post := by
  induction S with
  | nil =>
    intro st d pre post B hparts hpid hpre hpost
    exact hparts
  | cons staff rest ih =>
    intro st d pre post B hparts hpid hpre hpost
    have e1 := updatePart_split bpid
      (fun p => { p with staves := listInsertIdx p.staves d ({ staff with key := st.nextKey }) })
      { st with nextKey := st.nextKey + 1 } pre post B hparts hpid hpre hpost
    have e2 := ih (updatePart bpid
        (fun p => { p with staves := listInsertIdx p.staves d ({ staff with key := st.nextKey }) })
        { st with nextKey := st.nextKey + 1 })
      (d + 1) pre post
      ({ B with staves := listInsertIdx B.staves d ({ staff with key := st.nextKey }) })
      e1 hpid hpre hpost
    exact e2

theorem removeKeys_nil (l : List MsStaff) : removeKeys [] l = l := by
  refine List.filter_eq_self.mpr ?_
  intro t _
  rfl

theorem removeKeys_cons (k : Nat) (ks : List Nat) (l : List MsStaff) :
    removeKeys ks (l.filter (fun t => t.key ≠ k)) = removeKeys (k :: ks) l := by
  unfold removeKeys
  rw [List.filter_filter]
  refine List.filter_congr ?_
  intro t _
  by_cases h1 : t.key = k <;> simp [List.contains_cons, h1]

theorem doMoveStavesRemove_parts (S : List MsStaff) :
    ∀ st : NPState, (doMoveStavesRemove S st).parts
      = st.parts.map (fun p => { p with staves := removeKeys (S.map MsStaff.key) p.staves }) := by
  induction S with
  | nil =>
    intro st
    show st.parts = _
    symm
    refine (List.map_congr_left ?_).trans (List.map_id _)
    intro p _
    show ({ p with staves := removeKeys [] p.staves } : MsPart) = p
    rw [removeKeys_nil]
  | cons staff rest ih =>
    intro st
    have step : doMoveStavesRemove (staff :: rest) st
        = doMoveStavesRemove rest
            { st with parts := st.parts.map (fun p =>
                { p with staves := p.staves.filter (fun t => t.key ≠ staff.key) }) } := rfl
    rw [step, ih]
    show (st.parts.map (fun p => { p with staves := p.staves.filter (fun t => t.key ≠ staff.key) })).map
        (fun p => { p with staves := removeKeys (rest.map MsStaff.key) p.staves }) = _
    rw [List.map_map]
    refine List.map_congr_left ?_
    intro p _
    show ({ p with staves := removeKeys (rest.map MsStaff.key) (p.staves.filter (fun t => t.key ≠ staff.key)) } : MsPart) = _
    rw [removeKeys_cons]
    rfl

/-- C8: a `moveStaves` call relocating a set of staves S from part A to a
different part B (destination staff existing, object keys unique) keeps the
total staff count across A and B unchanged, splices clones holding exactly
the moved staves' musical content (in order) into B at the destination
index, and removes the originals from A. -/
theorem moveStaves_preservesCountAndContent
    (s : NPState) (ids : List Nat) (dsid : Nat) (mode : InsertMode)
    (pre post : List MsPart) (A B : MsPart) (S : List MsStaff) (ds : MsStaff)
    (bpre bpost : List MsStaff)
    (hne : ids ≠ [])
    (hS : stavesByIds s ids = S)
    (hds : staffLookup s dsid = some ds)
    (hsplit : s.parts = pre ++ B :: post)
    (hpreB : ∀ p ∈ pre, p.pid ≠ B.pid)
    (hpostB : ∀ p ∈ post, p.pid ≠ B.pid)
    (hA : A ∈ pre ∨ A ∈ post)
    (hSin : ∀ t ∈ S, t ∈ A.staves)
    (hSkeysN : (S.map MsStaff.key).Nodup)
    (hdsB : B.staves = bpre ++ ds :: bpost)
    (hkeysN : ((s.parts.flatMap MsPart.staves).map MsStaff.key).Nodup)
    (hbound : ∀ t ∈ s.parts.flatMap MsPart.staves, t.key < s.nextKey) :
    ∃ A' B' d cl,
      A' ∈ (moveStaves ids dsid mode s).1.parts
      ∧ B' ∈ (moveStaves ids dsid mode s).1.parts
      ∧ A'.pid = A.pid ∧ B'.pid = B.pid
      ∧ A'.staves.length + B'.staves.length = A.staves.length + B.staves.length
      ∧ B'.staves = B.staves.take d ++ cl ++ B.staves.drop d
      ∧ cl.map MsStaff.content = S.map MsStaff.content
      ∧ A'.staves = A.staves.filter (fun t => !((S.map MsStaff.key).contains t.key)) := by
  have hAmem : A ∈ s.parts := by
    rw [hsplit]
    rcases hA with h | h
    · exact List.mem_append_left _ h
    · exact List.mem_append_right _ (List.mem_cons_of_mem _ h)
  have hdsmem : ds ∈ B.staves := by
    rw [hdsB]
    exact List.mem_append_right _ (List.mem_cons_self _ _)
  have hkeys2 : ((pre.flatMap MsPart.staves).map MsStaff.key
      ++ (B.staves.map MsStaff.key ++ (post.flatMap MsPart.staves).map MsStaff.key)).Nodup := by
    have h0 := hkeysN
    rw [hsplit] at h0
    simpa [List.flatMap_append, List.flatMap_cons, List.map_append] using h0
  obtain ⟨hNpre, hNrest, hdisjPre⟩ := List.nodup_append.mp hkeys2
  obtain ⟨hNB, hNpost, hdisjB⟩ := List.nodup_append.mp hNrest
  have hSA_key : ∀ x ∈ S.map MsStaff.key, ∃ u ∈ A.staves, u.key = x := by
    intro x hx
    obtain ⟨u, hu, hux⟩ := List.mem_map.mp hx
    exact ⟨u, hSin u hu, hux⟩
  have f3 : ∀ t ∈ B.staves, (S.map MsStaff.key).contains t.key = false := by
    intro t ht
    cases hc : (S.map MsStaff.key).contains t.key
    · rfl
    · exfalso
      have hmemS : t.key ∈ S.map MsStaff.key := by simpa using hc
      obtain ⟨u, huA, hux⟩ := hSA_key _ hmemS
      have htB : t.key ∈ B.staves.map MsStaff.key := List.mem_map.mpr ⟨t, ht, rfl⟩
      rcases hA with hAp | hAp
      · have hxpre : t.key ∈ (pre.flatMap MsPart.staves).map MsStaff.key :=
          List.mem_map.mpr ⟨u, List.mem_flatMap.mpr ⟨A, hAp, huA⟩, hux⟩
        exact hdisjPre hxpre (List.mem_append_left _ htB)
      · have hxpost : t.key ∈ (post.flatMap MsPart.staves).map MsStaff.key :=
          List.mem_map.mpr ⟨u, List.mem_flatMap.mpr ⟨A, hAp, huA⟩, hux⟩
        exact hdisjB htB hxpost
  have f1 : ∀ x ∈ pre.flatMap MsPart.staves, (x.key == ds.key) = false := by
    intro x hx
    cases hc : (x.key == ds.key)
    · rfl
    · exfalso
      have hx' : x.key ∈ (pre.flatMap MsPart.staves).map MsStaff.key :=
        List.mem_map.mpr ⟨x, hx, rfl⟩
      have heq : x.key = ds.key := by simpa using hc
      have hds' : x.key ∈ B.staves.map MsStaff.key := by
        rw [heq]
        exact List.mem_map.mpr ⟨ds, hdsmem, rfl⟩
      exact hdisjPre hx' (List.mem_append_left _ hds')
  have f2 : ∀ x ∈ bpre, (x.key == ds.key) = false := by
    intro x hx
    cases hc : (x.key == ds.key)
    · rfl
    · exfalso
      have hNB' := hNB
      rw [hdsB] at hNB'
      have hsh : (bpre.map MsStaff.key ++ ds.key :: bpost.map MsStaff.key).Nodup := by
        simpa using hNB'
      have hdisj := (List.nodup_append.mp hsh).2.2
      have hx' : x.key ∈ bpre.map MsStaff.key := List.mem_map.mpr ⟨x, hx, rfl⟩
      have heq : x.key = ds.key := by simpa using hc
      exact hdisj hx' (by rw [heq]; exact List.mem_cons_self _ _)
  have hidxPart : staffIdxOfPart s B.pid = (pre.flatMap MsPart.staves).length := by
    unfold staffIdxOfPart
    rw [hsplit, takeWhile_append_cons _ pre B post
      (fun p hp => by simp [hpreB p hp]) (by simp)]
    rw [foldl_add_staffLengths pre]
    omega
  have hgidx : staffGlobalIdx s ds.key
      = (pre.flatMap MsPart.staves).length + bpre.length := by
    unfold staffGlobalIdx scoreStaves
    rw [hsplit, List.flatMap_append, List.flatMap_cons]
    rw [findIdx_append_not _ _ _ f1]
    congr 1
    rw [hdsB, List.append_assoc, List.cons_append]
    rw [findIdx_append_not _ _ _ f2]
    rw [List.findIdx_cons]
    simp
  have hdest : partPidOfStaffKey s ds.key = B.pid := by
    unfold partPidOfStaffKey
    rw [hsplit, find?_append_not _ pre _ ?hp]
    case hp =>
      intro p hp
      refine List.any_eq_false.mpr ?_
      intro x hx
      simp [f1 x (List.mem_flatMap.mpr ⟨p, hp, hx⟩)]
    rw [List.find?_cons_of_pos post (by exact List.any_eq_true.mpr ⟨ds, hdsmem, by simp⟩)]
    rfl
  have hne' : ids.isEmpty = false := by
    cases ids
    · exact absurd rfl hne
    · rfl
  have core : ∀ d : Nat, d ≤ B.staves.length →
      ∃ A' B' cl,
        A' ∈ (doMoveStaves S d (some B.pid) s).parts
        ∧ B' ∈ (doMoveStaves S d (some B.pid) s).parts
        ∧ A'.pid = A.pid ∧ B'.pid = B.pid
        ∧ A'.staves.length + B'.staves.length = A.staves.length + B.staves.length
        ∧ B'.staves = B.staves.take d ++ cl ++ B.staves.drop d
        ∧ cl.map MsStaff.content = S.map MsStaff.content
        ∧ A'.staves = A.staves.filter (fun t => !((S.map MsStaff.key).contains t.key)) := by
    intro d hd
    have hins := doMoveStavesInsert_spec B.pid S s d pre post B hsplit rfl hpreB hpostB
    have hparts2 : (doMoveStaves S d (some B.pid) s).parts
        = (pre ++ ({ B with staves := insertClones B.staves d S s.nextKey } : MsPart) :: post).map
            (fun p => { p with staves := removeKeys (S.map MsStaff.key) p.staves }) := by
      show (doMoveStavesRemove S (doMoveStavesInsert (some B.pid) S d s)).parts = _
      rw [doMoveStavesRemove_parts, hins]
    rw [List.map_append, List.map_cons] at hparts2
    have etake : (B.staves.take d).filter (fun t => !((S.map MsStaff.key).contains t.key))
        = B.staves.take d :=
      List.filter_eq_self.mpr (fun t ht => by rw [f3 t (List.take_subset _ _ ht)]; rfl)
    have edrop : (B.staves.drop d).filter (fun t => !((S.map MsStaff.key).contains t.key))
        = B.staves.drop d :=
      List.filter_eq_self.mpr (fun t ht => by rw [f3 t (List.drop_subset _ _ ht)]; rfl)
    have eclones : (clonesFrom s.nextKey S).filter (fun t => !((S.map MsStaff.key).contains t.key))
        = clonesFrom s.nextKey S := by
      refine List.filter_eq_self.mpr ?_
      intro t ht
      have h1 : s.nextKey ≤ t.key := clonesFrom_key_ge s.nextKey S t ht
      cases hc : (S.map MsStaff.key).contains t.key
      · rfl
      · exfalso
        have hmem : t.key ∈ S.map MsStaff.key := by simpa using hc
        obtain ⟨u, huA, hux⟩ := hSA_key _ hmem
        have h2 : u.key < s.nextKey := hbound u (List.mem_flatMap.mpr ⟨A, hAmem, huA⟩)
        omega
    have hBstaves : removeKeys (S.map MsStaff.key) (insertClones B.staves d S s.nextKey)
        = B.staves.take d ++ clonesFrom s.nextKey S ++ B.staves.drop d := by
      rw [insertClones_take_drop S B.staves d s.nextKey hd]
      unfold removeKeys
      rw [List.filter_append, List.filter_append, etake, edrop, eclones]
    have hAkeysN : (A.staves.map MsStaff.key).Nodup :=
      hkeysN.sublist ((staves_sublist_flatMap s.parts A hAmem).map MsStaff.key)
    have hFsub : ((A.staves.filter (fun t => (S.map MsStaff.key).contains t.key)).map MsStaff.key).Sublist
        (A.staves.map MsStaff.key) := (List.filter_sublist _).map _
    have hFN := hAkeysN.sublist hFsub
    have hperm : ((A.staves.filter (fun t => (S.map MsStaff.key).contains t.key)).map MsStaff.key).Perm
        (S.map MsStaff.key) := by
      rw [List.perm_ext_iff_of_nodup hFN hSkeysN]
      intro x
      constructor
      · intro hx
        obtain ⟨t, htf, htx⟩ := List.mem_map.mp hx
        have hft := List.of_mem_filter htf
        rw [← htx]
        simpa using hft
      · intro hx
        obtain ⟨u, huS, hux⟩ := List.mem_map.mp hx
        have huA := hSin u huS
        have hf : ((S.map MsStaff.key).contains u.key) = true := by
          have : u.key ∈ S.map MsStaff.key := List.mem_map.mpr ⟨u, huS, rfl⟩
          simpa using this
        exact List.mem_map.mpr ⟨u, List.mem_filter.mpr ⟨huA, hf⟩, hux⟩
    have hfs : (A.staves.filter (fun t => (S.map MsStaff.key).contains t.key)).length = S.length := by
      have h0 := hperm.length_eq
      simpa using h0
    have htot := List.length_eq_length_filter_add
      (l := A.staves) (f := fun t => (S.map MsStaff.key).contains t.key)
    have hlenB' : (B.staves.take d ++ clonesFrom s.nextKey S ++ B.staves.drop d).length
        = B.staves.length + S.length := by
      simp [clonesFrom_length]
      omega
    refine ⟨{ A with staves := removeKeys (S.map MsStaff.key) A.staves },
      { B with staves := removeKeys (S.map MsStaff.key) (insertClones B.staves d S s.nextKey) },
      clonesFrom s.nextKey S, ?_, ?_, rfl, rfl, ?_, hBstaves, clonesFrom_map_content _ _, rfl⟩
    · rw [hparts2]
      rcases hA with hAp | hAp
      · exact List.mem_append_left _
          (List.mem_map_of_mem (fun p => { p with staves := removeKeys (S.map MsStaff.key) p.staves }) hAp)
      · exact List.mem_append_right _ (List.mem_cons_of_mem _
          (List.mem_map_of_mem (fun p => { p with staves := removeKeys (S.map MsStaff.key) p.staves }) hAp))
    · rw [hparts2]
      exact List.mem_append_right _ (List.mem_cons_self _ _)
    · show (removeKeys (S.map MsStaff.key) A.staves).length
        + (removeKeys (S.map MsStaff.key) (insertClones B.staves d S s.nextKey)).length
        = A.staves.length + B.staves.length
      rw [hBstaves, hlenB']
      have hrem : (removeKeys (S.map MsStaff.key) A.staves).length
          = A.staves.length - S.length := by
        unfold removeKeys
        omega
      rw [hrem]
      omega
  have hblen : B.staves.length = bpre.length + 1 + bpost.length := by
    rw [hdsB]
    simp
    omega
  cases mode with
  | before =>
    have hmv : moveStaves ids dsid InsertMode.before s
        = (doMoveStaves S bpre.length (some B.pid) s, [Event.partsChanged]) := by
      simp only [moveStaves, hne', Bool.false_eq_true, if_false, hds, hS, hdest, hgidx, hidxPart]
      have e : (pre.flatMap MsPart.staves).length + bpre.length
          - (pre.flatMap MsPart.staves).length = bpre.length := by omega
      rw [e]
    obtain ⟨A', B', cl, m1, m2, m3, m4, m5, m6, m7, m8⟩ := core bpre.length (by omega)
    rw [hmv]
    exact ⟨A', B', bpre.length, cl, m1, m2, m3, m4, m5, m6, m7, m8⟩
  | after =>
    have hmv : moveStaves ids dsid InsertMode.after s
        = (doMoveStaves S (bpre.length + 1) (some B.pid) s, [Event.partsChanged]) := by
      simp only [moveStaves, hne', Bool.false_eq_true, if_false, hds, hS, hdest, hgidx, hidxPart]
      have e : (pre.flatMap MsPart.staves).length + bpre.length + 1
          - (pre.flatMap MsPart.staves).length = bpre.length + 1 := by omega
      rw [e]
    obtain ⟨A', B', cl, m1, m2, m3, m4, m5, m6, m7, m8⟩ := core (bpre.length + 1) (by omega)
    rw [hmv]
    exact ⟨A', B', bpre.length + 1, cl, m1, m2, m3, m4, m5, m6, m7, m8⟩

/-- C8 witness: moving both staves of part 1 before the second staff of
part 2 in the two-part example preserves the total staff count and the
moved contents. -/
theorem moveStaves_preserves_witness :
    ∃ A' B' d cl,
      A' ∈ (moveStaves [31, 32] 42 InsertMode.before exStaffState).1.parts
      ∧ B' ∈ (moveStaves [31, 32] 42 InsertMode.before exStaffState).1.parts
      ∧ A'.pid = exStaffPartA.pid ∧ B'.pid = exStaffPartB.pid
      ∧ A'.staves.length + B'.staves.length
          = exStaffPartA.staves.length + exStaffPartB.staves.length
      ∧ B'.staves = exStaffPartB.staves.take d ++ cl ++ exStaffPartB.staves.drop d
      ∧ cl.map MsStaff.content
          = (exStaffPartA.staves).map MsStaff.content
      ∧ A'.staves = exStaffPartA.staves.filter
          (fun t => !(((exStaffPartA.staves).map MsStaff.key).contains t.key)) := by
  have h := moveStaves_preservesCountAndContent exStaffState [31, 32] 42 InsertMode.before
    [exStaffPartA] [] exStaffPartA exStaffPartB exStaffPartA.staves
    { key := 42, sid := 42, content := [(4, 8)], linked := false, small := false }
    [{ key := 41, sid := 41, content := [(0, 7)], linked := false, small := false }] []
    (by decide) rfl rfl rfl (by decide) (by decide) (Or.inl (by decide)) (by decide)
    (by decide) (by decide) (by decide) (by decide)
  exact h


/-- C7: amended behaviour of `moveInstruments` on a tick collision, "Before"
mode.  Moving instrument X (anchored at tick `t` in part `a`) before
destination instrument Y (anchored at the same tick `t` in part `b`): the
colliding tick is resolved by appending `last tick + 1` to the fraction
list and reassigning the sorted ticks positionally, so the INCOMING X takes
the colliding slot `t` (immediately preceding Y in the mapping) and the
EXISTING OCCUPANT Y is the entry bumped to `t + 1`; the resulting mapping
`[(0, iB), (t, X), (t+1, Y)]` is collision-free. -/
theorem moveInstruments_before_collision
    (a b : Nat) (t : Int) (iA iB X Y : MsInstrument) (nmA nmB : String)
    (stvA stvB : List MsStaff) (shA shB : Bool)
    (cm : Bool) (mp : List MsPart) (ms : List Int) (sel : Option ChordRest)
    (ef : MsError) (nk : Nat)
    (hab : a ≠ b) (ht : 0 < t)
    (hAX : iA.instrumentId ≠ X.instrumentId)
    (hBY : iB.instrumentId ≠ Y.instrumentId) :
    ((moveInstruments [X.instrumentId] a b Y.instrumentId InsertMode.before
        { parts := [⟨a, nmA, [(0, iA), (t, X)], stvA, shA⟩,
                    ⟨b, nmB, [(0, iB), (t, Y)], stvB, shB⟩],
          curIsMaster := cm, masterParts := mp, excerpts := [], measures := ms,
          chordRests := [], instrChanges := [], selection := sel,
          errorFlag := ef, nextKey := nk }).1.parts.map
      (fun p => (p.pid, p.instrumentsMap)))
      = [(a, [(0, iA)]), (b, [(0, iB), (t, X), (t + 1, Y)])]
    ∧ ∀ p ∈ (moveInstruments [X.instrumentId] a b Y.instrumentId InsertMode.before
        { parts := [⟨a, nmA, [(0, iA), (t, X)], stvA, shA⟩,
                    ⟨b, nmB, [(0, iB), (t, Y)], stvB, shB⟩],
          curIsMaster := cm, masterParts := mp, excerpts := [], measures := ms,
          chordRests := [], instrChanges := [], selection := sel,
          errorFlag := ef, nextKey := nk }).1.parts,
        (p.instrumentsMap.map Prod.fst).Pairwise (· < ·) := by
  have habb : (a == b) = false := by simp [hab]
  have hAXb : (iA.instrumentId == X.instrumentId) = false := by simp [hAX]
  have hBYb : (iB.instrumentId == Y.instrumentId) = false := by simp [hBY]
  have h1 : t ≤ t + 1 := by omega
  have h2 : (0 : Int) ≤ t := le_of_lt ht
  have h3 : ¬ t < 0 := by omega
  have h4 : ¬ t = 0 := by omega
  have h5 : ¬ t + 1 < 0 := by omega
  have h6 : ¬ t + 1 = 0 := by omega
  have h7 : ¬ t + 1 < t := by omega
  have h8 : ¬ t + 1 = t := by omega
  have h9 : ¬ t < t := by omega
  have e1 : partLookupCur
      { parts := [⟨a, nmA, [(0, iA), (t, X)], stvA, shA⟩,
                  ⟨b, nmB, [(0, iB), (t, Y)], stvB, shB⟩],
        curIsMaster := cm, masterParts := mp, excerpts := [], measures := ms,
        chordRests := [], instrChanges := [], selection := sel,
        errorFlag := ef, nextKey := nk } a
      = some ⟨a, nmA, [(0, iA), (t, X)], stvA, shA⟩ := by
    simp [partLookupCur, availablePartsCur, List.find?]
  have e2 : partLookupCur
      { parts := [⟨a, nmA, [(0, iA), (t, X)], stvA, shA⟩,
                  ⟨b, nmB, [(0, iB), (t, Y)], stvB, shB⟩],
        curIsMaster := cm, masterParts := mp, excerpts := [], measures := ms,
        chordRests := [], instrChanges := [], selection := sel,
        errorFlag := ef, nextKey := nk } b
      = some ⟨b, nmB, [(0, iB), (t, Y)], stvB, shB⟩ := by
    simp [partLookupCur, availablePartsCur, List.find?, habb]
  have e3 : instrumentsOf (⟨a, nmA, [(0, iA), (t, X)], stvA, shA⟩ : MsPart)
      [X.instrumentId] = [(t, X)] := by
    simp [instrumentsOf, List.filter, hAXb, hAX]
  have e4 : doRemoveInstruments [X.instrumentId] a
      { parts := [⟨a, nmA, [(0, iA), (t, X)], stvA, shA⟩,
                  ⟨b, nmB, [(0, iB), (t, Y)], stvB, shB⟩],
        curIsMaster := cm, masterParts := mp, excerpts := [], measures := ms,
        chordRests := [], instrChanges := [], selection := sel,
        errorFlag := ef, nextKey := nk }
      = { parts := [⟨a, nmA, [(0, iA)], stvA, shA⟩,
                    ⟨b, nmB, [(0, iB), (t, Y)], stvB, shB⟩],
          curIsMaster := cm, masterParts := mp, excerpts := [], measures := ms,
          chordRests := [], instrChanges := [], selection := sel,
          errorFlag := ef, nextKey := nk } := by
    simp [doRemoveInstruments, doRemoveInstrumentsLoop, instrumentChangeElements,
      instrumentInfo, instrumentsOf, updatePart, removeInstrumentFromMap,
      List.find?, List.filter, hab, Ne.symm hab, hAXb, hAX]
  have e5 : doInsertInstruments [(t, X)] b Y.instrumentId InsertMode.before
      { parts := [⟨a, nmA, [(0, iA)], stvA, shA⟩,
                  ⟨b, nmB, [(0, iB), (t, Y)], stvB, shB⟩],
        curIsMaster := cm, masterParts := mp, excerpts := [], measures := ms,
        chordRests := [], instrChanges := [], selection := sel,
        errorFlag := ef, nextKey := nk }
      = { parts := [⟨a, nmA, [(0, iA)], stvA, shA⟩,
                    ⟨b, String.intercalate " & " [iB.trackName, X.trackName, Y.trackName],
                      [(0, iB), (t, X), (t + 1, Y)], stvB, shB⟩],
          curIsMaster := cm, masterParts := mp, excerpts := [], measures := ms,
          chordRests := [], instrChanges := [], selection := sel,
          errorFlag := ef, nextKey := nk } := by
    simp [doInsertInstruments, partLookupCur, availablePartsCur, instrumentsOf,
      List.find?, List.filter, List.findIdx?_cons, habb, hBYb, listInsertIdx,
      sortTicks, insertSortedTick, h1, h2, h3, h4, h5, h6, h7, h8, h9,
      List.getLastD, updatePart, mapInsert, instrumentChangeElements,
      doInsertLoop, chordRestAt, doSetPartNameSt, formatPartNameSt,
      hab, Ne.symm hab]
  have hres :
      (moveInstruments [X.instrumentId] a b Y.instrumentId InsertMode.before
        { parts := [⟨a, nmA, [(0, iA), (t, X)], stvA, shA⟩,
                    ⟨b, nmB, [(0, iB), (t, Y)], stvB, shB⟩],
          curIsMaster := cm, masterParts := mp, excerpts := [], measures := ms,
          chordRests := [], instrChanges := [], selection := sel,
          errorFlag := ef, nextKey := nk }).1.parts
      = [⟨a, String.intercalate " & " [iA.trackName], [(0, iA)], stvA, shA⟩,
         ⟨b, String.intercalate " & " [iB.trackName, X.trackName, Y.trackName],
           [(0, iB), (t, X), (t + 1, Y)], stvB, shB⟩] := by
    rw [moveInstruments, e1, e2]
    dsimp only
    rw [e3, e4, e5]
    simp [doSetPartNameSt, formatPartNameSt, updatePart, List.find?,
      hab, Ne.symm hab, habb]
  refine ⟨by rw [hres]; rfl, ?_⟩
  rw [hres]
  intro p hp
  simp only [List.mem_cons, List.not_mem_nil, or_false] at hp
  rcases hp with h | h
  · subst h; simp
  · subst h
    simp only [List.map_cons, List.map_nil, List.pairwise_cons, List.not_mem_nil]
    refine ⟨?_, ?_, ?_⟩
    · intro u hu
      simp only [List.mem_cons, List.not_mem_nil, or_false] at hu
      rcases hu with h | h <;> subst h <;> omega
    · intro u hu
      simp only [List.mem_singleton] at hu
      subst hu; omega
    · simp

/-- The original C7 wording is refuted on `exMoveState`: the incoming X is
NOT bumped to tick 11 — it lands on the colliding tick 10 itself, and the
previous occupant Y (which the claim says is not displaced) loses its slot
and is bumped to 11. -/
theorem moveInstruments_collision_counterexample :
    ((moveInstruments [12] 1 2 13 InsertMode.before exMoveState).1.parts.map
        (fun p => (p.pid, p.instrumentsMap)))
      = [(1, [(0, exViolinMs)]), (2, [(0, exViolaMs), (10, exXMs), (11, exYMs)])]
    ∧ ((11 : Int), exXMs) ∉
        (((moveInstruments [12] 1 2 13 InsertMode.before exMoveState).1.parts.map
          (fun p => p.instrumentsMap)).flatMap id)
    ∧ ((10 : Int), exYMs) ∉
        (((moveInstruments [12] 1 2 13 InsertMode.before exMoveState).1.parts.map
          (fun p => p.instrumentsMap)).flatMap id) :=
  ⟨rfl, by decide, by decide⟩

/-- Witness: C7 amended theorem applied at the concrete collision scenario
(`exMoveState`, spelled out). -/
theorem moveInstruments_before_collision_witness :
    ((moveInstruments [12] 1 2 13 InsertMode.before
        { parts := [⟨1, "A", [(0, exViolinMs), (10, exXMs)], [], true⟩,
                    ⟨2, "B", [(0, exViolaMs), (10, exYMs)], [], true⟩],
          curIsMaster := true, masterParts := [], excerpts := [], measures := [0],
          chordRests := [], instrChanges := [], selection := none,
          errorFlag := MsError.MS_NO_ERROR, nextKey := 100 }).1.parts.map
      (fun p => (p.pid, p.instrumentsMap)))
      = [(1, [(0, exViolinMs)]), (2, [(0, exViolaMs), (10, exXMs), (10 + 1, exYMs)])]
    ∧ ∀ p ∈ (moveInstruments [12] 1 2 13 InsertMode.before
        { parts := [⟨1, "A", [(0, exViolinMs), (10, exXMs)], [], true⟩,
                    ⟨2, "B", [(0, exViolaMs), (10, exYMs)], [], true⟩],
          curIsMaster := true, masterParts := [], excerpts := [], measures := [0],
          chordRests := [], instrChanges := [], selection := none,
          errorFlag := MsError.MS_NO_ERROR, nextKey := 100 }).1.parts,
        (p.instrumentsMap.map Prod.fst).Pairwise (· < ·) :=
  moveInstruments_before_collision 1 2 10 exViolinMs exViolaMs exXMs exYMs "A" "B"
    [] [] true true true [] [0] none MsError.MS_NO_ERROR 100
    (by decide) (by decide) (by decide) (by decide)

theorem mainInstrumentId_eq (p : MsPart) : mainInstrumentId p = mainOfMap p.instrumentsMap := rfl

theorem pm_map_pid (l : List MsPart) : l.map MsPart.pid = (l.map pmSig).map Prod.fst := by
  rw [List.map_map]; rfl

theorem pm_map_main (l : List MsPart) :
    l.map mainInstrumentId = (l.map pmSig).map (fun q => mainOfMap q.2) := by
  rw [List.map_map]; rfl

theorem pmEq_pid {l l' : List MsPart} (h : l.map pmSig = l'.map pmSig) :
    l.map MsPart.pid = l'.map MsPart.pid := by
  rw [pm_map_pid, pm_map_pid, h]

theorem pmEq_main {l l' : List MsPart} (h : l.map pmSig = l'.map pmSig) :
    l.map mainInstrumentId = l'.map mainInstrumentId := by
  rw [pm_map_main, pm_map_main, h]

theorem pmPerm_pid {l l' : List MsPart} (h : (l.map pmSig).Perm (l'.map pmSig)) :
    (l.map MsPart.pid).Perm (l'.map MsPart.pid) := by
  rw [pm_map_pid, pm_map_pid]; exact h.map _

theorem pmPerm_main {l l' : List MsPart} (h : (l.map pmSig).Perm (l'.map pmSig)) :
    (l.map mainInstrumentId).Perm (l'.map mainInstrumentId) := by
  rw [pm_map_main, pm_map_main]; exact h.map _

theorem pmPerm_keys {l l' : List MsPart} (C : List (Int × MsInstrument) → Prop)
    (h : (l'.map pmSig).Perm (l.map pmSig)) (hl : ∀ p ∈ l, C p.instrumentsMap) :
    ∀ p ∈ l', C p.instrumentsMap := by
  intro p hp
  have hmem : pmSig p ∈ l.map pmSig := h.mem_iff.mp (List.mem_map_of_mem _ hp)
  obtain ⟨q, hq, hqe⟩ := List.mem_map.mp hmem
  have : q.instrumentsMap = p.instrumentsMap := congrArg Prod.snd hqe
  rw [← this]; exact hl q hq

theorem keys_single {m : List (Int × MsInstrument)} (h : m.map Prod.fst = [0]) :
    ∃ i, m = [(0, i)] := by
  match m with
  | [] => simp at h
  | (t, i) :: rest =>
    simp only [List.map_cons, List.cons.injEq] at h
    obtain ⟨ht, hrest⟩ := h
    have : rest = [] := List.map_eq_nil_iff.mp hrest
    exact ⟨i, by rw [ht, this]⟩

theorem find?_pid_nodup {l : List MsPart} (hn : (l.map MsPart.pid).Nodup)
    {p : MsPart} (hp : p ∈ l) : l.find? (fun q => q.pid == p.pid) = some p := by
  induction l with
  | nil => cases hp
  | cons a tl ih =>
    simp only [List.map_cons, List.nodup_cons] at hn
    rcases List.mem_cons.mp hp with h | h
    · subst h
      rw [List.find?_cons_of_pos _ (by simp)]
    · have hne : (a.pid == p.pid) = false := by
        simp only [beq_eq_false_iff_ne, ne_eq]
        intro he
        exact hn.1 (he ▸ List.mem_map_of_mem MsPart.pid h)
      simp only [List.find?_cons, hne, cond_false]
      exact ih hn.2 h

theorem dedupByPidGo_of_nodup {l : List MsPart} (hn : (l.map MsPart.pid).Nodup) :
    ∀ seen, (∀ x ∈ seen, x ∉ l.map MsPart.pid) → dedupByPidGo seen l = l := by
  induction l with
  | nil => intro seen _; rfl
  | cons a tl ih =>
    intro seen hseen
    simp only [List.map_cons, List.nodup_cons] at hn
    have hnot : seen.contains a.pid = false := by
      by_contra hc
      simp only [Bool.not_eq_false] at hc
      exact hseen a.pid (List.mem_of_elem_eq_true hc) (by simp)
    rw [dedupByPidGo, hnot]
    simp only [Bool.false_eq_true, if_false]
    congr 1
    apply ih hn.2
    intro x hx
    rcases List.mem_cons.mp hx with h | h
    · subst h; exact hn.1
    · intro hmem; exact hseen x h (List.mem_cons_of_mem _ hmem)

theorem availablePartsCur_no_exc {s : NPState} (he : s.excerpts = []) :
    availablePartsCur s = s.parts := by
  simp [availablePartsCur, he]

theorem partListParts_no_exc {s : NPState} (he : s.excerpts = [])
    (hn : (s.parts.map MsPart.pid).Nodup) : partListParts s = s.parts := by
  rw [partListParts, availablePartsCur_no_exc he]
  exact dedupByPidGo_of_nodup hn [] (by simp)

theorem listInsertIdx_append_length {α : Type} (A B : List α) (x : α) :
    listInsertIdx (A ++ B) A.length x = A ++ x :: B := by
  induction A with
  | nil => cases B <;> rfl
  | cons a tl ih => simp [listInsertIdx, ih]

theorem listInsertIdx_map {α β : Type} (f : α → β) (l : List α) (n : Nat) (a : α) :
    (listInsertIdx l n a).map f = listInsertIdx (l.map f) n (f a) := by
  induction l generalizing n with
  | nil => cases n <;> rfl
  | cons x tl ih =>
    cases n with
    | zero => rfl
    | succ m => simp [listInsertIdx, ih]

theorem listInsertIdx_mem {α : Type} {l : List α} {n : Nat} {a x : α}
    (h : x ∈ listInsertIdx l n a) : x = a ∨ x ∈ l := by
  induction l generalizing n with
  | nil =>
    cases n with
    | zero => simp [listInsertIdx] at h; exact Or.inl h
    | succ m => simp [listInsertIdx] at h; exact Or.inl h
  | cons y tl ih =>
    cases n with
    | zero =>
      rcases List.mem_cons.mp h with h | h
      · exact Or.inl h
      · exact Or.inr h
    | succ m =>
      rcases List.mem_cons.mp h with h | h
      · exact Or.inr (h ▸ List.mem_cons_self y tl)
      · rcases ih h with h | h
        · exact Or.inl h
        · exact Or.inr (List.mem_cons_of_mem _ h)

theorem find?_split {α : Type} {l : List α} {p : α → Bool} {b : α}
    (h : l.find? p = some b) :
    ∃ l₁ l₂, l = l₁ ++ b :: l₂ ∧ (∀ a ∈ l₁, p a = false) ∧ p b = true := by
  induction l with
  | nil => simp at h
  | cons a tl ih =>
    by_cases hp : p a = true
    · rw [List.find?_cons_of_pos _ hp] at h
      obtain rfl : a = b := by injection h
      exact ⟨[], tl, rfl, by simp, hp⟩
    · rw [List.find?_cons_of_neg _ hp] at h
      obtain ⟨l₁, l₂, he, hno, hb⟩ := ih h
      exact ⟨a :: l₁, l₂, by rw [he]; rfl, by
        intro x hx
        rcases List.mem_cons.mp hx with h | h
        · subst h; simpa using hp
        · exact hno x h, hb⟩

theorem stableView_refl (st : NPState) : StableView st st :=
  ⟨rfl, rfl, rfl, rfl, le_refl _⟩

theorem stableView_trans {s1 s2 s3 : NPState} (h1 : StableView s1 s2)
    (h2 : StableView s2 s3) : StableView s1 s3 :=
  ⟨h2.1.trans h1.1, h2.2.1.trans h1.2.1, h2.2.2.1.trans h1.2.2.1,
   h2.2.2.2.1.trans h1.2.2.2.1, h1.2.2.2.2.trans h2.2.2.2.2⟩

theorem updatePart_stable {f : MsPart → MsPart} (hf : ∀ p, pmSig (f p) = pmSig p)
    (pid : Nat) (st : NPState) : StableView st (updatePart pid f st) := by
  refine ⟨?_, rfl, rfl, rfl, le_refl _⟩
  show (st.parts.map (fun p => if p.pid = pid then f p else p)).map pmSig = st.parts.map pmSig
  rw [List.map_map]
  apply List.map_congr_left
  intro p _
  by_cases hc : p.pid = pid <;> simp [hc, hf p]

theorem appendStavesLoop_stable (pid : Nat) (instr : Instrument) :
    ∀ (k i : Nat) (st : NPState), StableView st (appendStavesLoop pid instr k i st) := by
  intro k
  induction k with
  | zero => intro i st; exact stableView_refl st
  | succ m ih =>
    intro i st
    refine stableView_trans ?_ (ih (i + 1) _)
    refine stableView_trans (show StableView st { st with nextKey := st.nextKey + 1 } from ⟨rfl, rfl, rfl, rfl, Nat.le_succ _⟩) ?_
    refine updatePart_stable ?_ pid _
    intro p
    rfl

theorem appendStaves_stable (pid : Nat) (instr : Instrument) (st : NPState) :
    StableView st (appendStaves pid instr st) :=
  appendStavesLoop_stable pid instr instr.staves 0 st

theorem doMoveStavesInsert_stable (dp : Option Nat) :
    ∀ (staves : List MsStaff) (idx : Nat) (st : NPState),
      StableView st (doMoveStavesInsert dp staves idx st) := by
  intro staves
  induction staves with
  | nil => intro idx st; exact stableView_refl st
  | cons staff rest ih =>
    intro idx st
    refine stableView_trans ?_ (ih (idx + 1) _)
    refine stableView_trans (show StableView st { st with nextKey := st.nextKey + 1 } from ⟨rfl, rfl, rfl, rfl, Nat.le_succ _⟩) ?_
    refine updatePart_stable ?_ _ _
    intro p
    rfl

theorem doMoveStavesRemove_stable :
    ∀ (staves : List MsStaff) (st : NPState),
      StableView st (doMoveStavesRemove staves st) := by
  intro staves
  induction staves with
  | nil => intro st; exact stableView_refl st
  | cons staff rest ih =>
    intro st
    refine stableView_trans ?_ (ih _)
    refine ⟨?_, rfl, rfl, rfl, le_refl _⟩
    show (st.parts.map _).map pmSig = st.parts.map pmSig
    rw [List.map_map]
    apply List.map_congr_left
    intro p _
    rfl

theorem doMoveStaves_stable (staves : List MsStaff) (idx : Nat) (dp : Option Nat)
    (st : NPState) : StableView st (doMoveStaves staves idx dp st) :=
  stableView_trans (doMoveStavesInsert_stable dp staves idx st)
    (doMoveStavesRemove_stable staves _)


theorem removeMissingLoop_single (newIds : List Nat) :
    ∀ (l : List MsPart) (st : NPState) (acc : List Nat),
      (∀ p ∈ l, (st.parts.find? (fun q => q.pid == p.pid)).getD p = p ∧
        ∃ m, p.instrumentsMap = [(0, m)]) →
      removeMissingLoop newIds l st acc
        = (st, acc ++ (l.filter
            (fun p => !(newIds.contains (mainInstrumentId p)))).map MsPart.pid) := by
  intro l
  induction l with
  | nil => intro st acc _; simp [removeMissingLoop]
  | cons p rest ih =>
    intro st acc hl
    obtain ⟨hlive, m, hm⟩ := hl p (by simp)
    have hrest : ∀ q ∈ rest, (st.parts.find? (fun r => r.pid == q.pid)).getD q = q ∧
        ∃ m, q.instrumentsMap = [(0, m)] := fun q hq => hl q (List.mem_cons_of_mem _ hq)
    have hmain : mainInstrumentId p = m.instrumentId := by
      rw [mainInstrumentId_eq, hm]; rfl
    rw [removeMissingLoop, hlive]
    simp only [instrumentsOf_noFilter, hm, List.filter_cons, List.filter_nil]
    cases hc : newIds.contains m.instrumentId with
    | true =>
      simp only [hc, Bool.not_true, Bool.false_eq_true, if_false, List.map_nil,
        List.length_nil, List.length_cons]
      rw [if_neg (by omega)]
      rw [show doRemoveInstruments [] p.pid st = st from rfl, ih st acc hrest, hmain, hc]
      simp
    | false =>
      simp only [hc, Bool.not_false, if_true, List.map_cons, List.map_nil,
        List.length_cons, List.length_nil]
      rw [ih st (acc ++ [p.pid]) hrest, hmain, hc]
      simp

theorem doRemoveParts_shape :
    ∀ (rem : List Nat) (s : NPState), s.curIsMaster = true → s.excerpts = [] →
      (doRemoveParts rem s).parts = s.parts.filter (fun p => !(rem.contains p.pid)) ∧
      (doRemoveParts rem s).curIsMaster = true ∧
      (doRemoveParts rem s).excerpts = [] ∧
      (doRemoveParts rem s).measures = s.measures ∧
      (doRemoveParts rem s).nextKey = s.nextKey := by
  intro rem
  induction rem with
  | nil =>
    intro s hm he
    refine ⟨?_, hm, he, rfl, rfl⟩
    rw [doRemoveParts]
    rw [List.filter_eq_self.mpr]
    intro p _
    simp
  | cons a rest ih =>
    intro s hm he
    rw [doRemoveParts]
    dsimp only
    have hm1 : (cmdRemovePartCur a s).curIsMaster = true := hm
    rw [if_pos hm1]
    have he2 : ({ cmdRemovePartCur a s with excerpts := (cmdRemovePartCur a s).excerpts.map (fun e => Excerpt.mk (e.eparts.filter (fun p => p.pid ≠ a))) } : NPState).excerpts = [] := by
      show (s.excerpts.map _) = []
      rw [he]
      rfl
    have hm2 : ({ cmdRemovePartCur a s with excerpts := (cmdRemovePartCur a s).excerpts.map (fun e => Excerpt.mk (e.eparts.filter (fun p => p.pid ≠ a))) } : NPState).curIsMaster = true := hm1
    obtain ⟨h1, h2, h3, h4, h5⟩ := ih { cmdRemovePartCur a s with excerpts := (cmdRemovePartCur a s).excerpts.map (fun e => Excerpt.mk (e.eparts.filter (fun p => p.pid ≠ a))) } hm2 he2
    refine ⟨?_, h2, h3, by exact h4, by exact h5⟩
    rw [h1]
    show ((s.parts.filter (fun p => p.pid ≠ a)).filter (fun p => !(rest.contains p.pid)))
      = s.parts.filter (fun p => !((a :: rest).contains p.pid))
    rw [List.filter_filter]
    apply List.filter_congr
    intro p _
    show (!(rest.contains p.pid) && decide (p.pid ≠ a)) = !((a :: rest).contains p.pid)
    rw [List.contains_cons]
    cases h : rest.contains p.pid <;> by_cases hpa : p.pid = a <;> simp [hpa, h]

theorem contains_iff_mem {l : List Nat} {x : Nat} : l.contains x = true ↔ x ∈ l :=
  ⟨List.mem_of_elem_eq_true, List.elem_eq_true_of_mem⟩

theorem removeMissing_wf (ids : List Nat) (s : NPState)
    (hm : s.curIsMaster = true) (he : s.excerpts = [])
    (hn : (s.parts.map MsPart.pid).Nodup)
    (hk : ∀ p ∈ s.parts, ∃ m, p.instrumentsMap = [(0, m)]) :
    (removeMissingInstruments ids s).parts
      = s.parts.filter (fun p => ids.contains (mainInstrumentId p)) ∧
    (removeMissingInstruments ids s).curIsMaster = true ∧
    (removeMissingInstruments ids s).excerpts = [] ∧
    (removeMissingInstruments ids s).measures = s.measures ∧
    (removeMissingInstruments ids s).nextKey = s.nextKey := by
  have hloop := removeMissingLoop_single ids s.parts s []
    (fun p hp => ⟨by rw [find?_pid_nodup hn hp]; rfl, hk p hp⟩)
  have hrm : removeMissingInstruments ids s
      = doRemoveParts ((s.parts.filter
          (fun p => !(ids.contains (mainInstrumentId p)))).map MsPart.pid) s := by
    rw [removeMissingInstruments, partListParts_no_exc he hn, hloop]
    simp
  rw [hrm]
  obtain ⟨h1, h2, h3, h4, h5⟩ := doRemoveParts_shape
    ((s.parts.filter (fun p => !(ids.contains (mainInstrumentId p)))).map MsPart.pid) s hm he
  refine ⟨?_, h2, h3, h4, h5⟩
  rw [h1]
  apply List.filter_congr
  intro p hp
  dsimp only
  cases hcm : ids.contains (mainInstrumentId p) with
  | true =>
    have hf : ((s.parts.filter (fun q => !(ids.contains (mainInstrumentId q)))).map
        MsPart.pid).contains p.pid = false := by
      by_contra hcc
      simp only [Bool.not_eq_false] at hcc
      have hmem := contains_iff_mem.mp hcc
      obtain ⟨q, hq, hqe⟩ := List.mem_map.mp hmem
      have hqs := List.mem_of_mem_filter hq
      have hqeq : q = p := List.inj_on_of_nodup_map hn hqs hp hqe
      subst hqeq
      have := List.of_mem_filter hq
      rw [hcm] at this
      simp at this
    rw [hf]
    rfl
  | false =>
    have hpmem : p ∈ s.parts.filter (fun q => !(ids.contains (mainInstrumentId q))) :=
      List.mem_filter.mpr ⟨hp, by rw [hcm]; rfl⟩
    rw [contains_iff_mem.mpr (List.mem_map_of_mem MsPart.pid hpmem)]
    rfl

theorem flatMap_single {l : List MsPart}
    (hk : ∀ p ∈ l, ∃ m, p.instrumentsMap = [(0, m)]) :
    l.flatMap (fun p => (instrumentsOf p []).map (fun e => e.2.instrumentId))
      = l.map mainInstrumentId := by
  induction l with
  | nil => rfl
  | cons p rest ih =>
    obtain ⟨m, hm⟩ := hk p (by simp)
    rw [List.flatMap_cons]
    rw [ih (fun q hq => hk q (List.mem_cons_of_mem _ hq))]
    rw [instrumentsOf_noFilter, hm]
    simp [mainInstrumentId_eq, hm, mainOfMap]

theorem allInstrumentsIds_single (s : NPState) (he : s.excerpts = [])
    (hn : (s.parts.map MsPart.pid).Nodup)
    (hk : ∀ p ∈ s.parts, ∃ m, p.instrumentsMap = [(0, m)]) :
    allInstrumentsIds s = s.parts.map mainInstrumentId := by
  rw [allInstrumentsIds, partListParts_no_exc he hn]
  exact flatMap_single hk

theorem createPartsLoop_spec (E : List Nat) :
    ∀ (L : List Instrument) (st : NPState),
      (∀ p ∈ st.parts, p.pid < st.nextKey) →
      ∃ new : List MsPart,
        (createPartsLoop E L st).parts.map pmSig = st.parts.map pmSig ++ new.map pmSig ∧
        new.map mainInstrumentId
          = (L.filter (fun i => !(!E.isEmpty && E.contains i.id))).map Instrument.id ∧
        (∀ p ∈ new, ∃ m, p.instrumentsMap = [(0, m)]) ∧
        (new.map MsPart.pid).Nodup ∧
        (∀ p ∈ new, st.nextKey ≤ p.pid) ∧
        (createPartsLoop E L st).curIsMaster = st.curIsMaster ∧
        (createPartsLoop E L st).excerpts = st.excerpts ∧
        (createPartsLoop E L st).measures = st.measures ∧
        st.nextKey ≤ (createPartsLoop E L st).nextKey := by
  intro L
  induction L with
  | nil =>
    intro st _
    exact ⟨[], by simp [createPartsLoop], by simp, by simp, by simp, by simp,
      rfl, rfl, rfl, le_refl _⟩
  | cons i rest ih =>
    intro st hb
    rw [createPartsLoop]
    dsimp only
    cases hcond : (!E.isEmpty && E.contains i.id) with
    | true =>
      rw [if_pos rfl]
      obtain ⟨new, c1, c2, c3, c4, c5, c6, c7, c8, c9⟩ := ih st hb
      refine ⟨new, c1, ?_, c3, c4, c5, c6, c7, c8, c9⟩
      rw [c2, List.filter_cons, if_neg (by
        simp [hcond]
        obtain ⟨h1, h2⟩ := (Bool.and_eq_true _ _).mp hcond
        exact ⟨fun hE => by rw [hE] at h1; simp at h1, contains_iff_mem.mp h2⟩)]
    | false =>
      rw [if_neg (by simp [hcond])]
      have hstable := appendStaves_stable st.nextKey i { st with parts := st.parts ++ [(⟨st.nextKey, i.name, [(0, convertInstrument i)], [], true⟩ : MsPart)], nextKey := st.nextKey + 1 }
      have hnk1 : (st.nextKey + 1 : Nat) ≤ (appendStaves st.nextKey i { st with parts := st.parts ++ [(⟨st.nextKey, i.name, [(0, convertInstrument i)], [], true⟩ : MsPart)], nextKey := st.nextKey + 1 }).nextKey := hstable.2.2.2.2
      have hb2 : ∀ p ∈ (appendStaves st.nextKey i { st with parts := st.parts ++ [(⟨st.nextKey, i.name, [(0, convertInstrument i)], [], true⟩ : MsPart)], nextKey := st.nextKey + 1 }).parts, p.pid < (appendStaves st.nextKey i { st with parts := st.parts ++ [(⟨st.nextKey, i.name, [(0, convertInstrument i)], [], true⟩ : MsPart)], nextKey := st.nextKey + 1 }).nextKey := by
        intro p hp
        have hmem : pmSig p ∈ (appendStaves st.nextKey i { st with parts := st.parts ++ [(⟨st.nextKey, i.name, [(0, convertInstrument i)], [], true⟩ : MsPart)], nextKey := st.nextKey + 1 }).parts.map pmSig := List.mem_map_of_mem _ hp
        rw [hstable.1] at hmem
        obtain ⟨q, hq, hqe⟩ := List.mem_map.mp hmem
        have hpid : q.pid = p.pid := congrArg Prod.fst hqe
        have hq1 : q.pid < st.nextKey + 1 := by
          rcases List.mem_append.mp hq with h | h
          · exact Nat.lt_succ_of_lt (hb q h)
          · rw [List.mem_singleton.mp h]
            exact Nat.lt_succ_self _
        omega
      obtain ⟨new, c1, c2, c3, c4, c5, c6, c7, c8, c9⟩ := ih (appendStaves st.nextKey i { st with parts := st.parts ++ [(⟨st.nextKey, i.name, [(0, convertInstrument i)], [], true⟩ : MsPart)], nextKey := st.nextKey + 1 }) hb2
      refine ⟨(⟨st.nextKey, i.name, [(0, convertInstrument i)], [], true⟩ : MsPart) :: new, ?_, ?_, ?_, ?_, ?_, ?_, ?_, ?_, ?_⟩
      · rw [c1, hstable.1]
        show (st.parts ++ [(⟨st.nextKey, i.name, [(0, convertInstrument i)], [], true⟩ : MsPart)]).map pmSig ++ new.map pmSig = _
        rw [List.map_append]
        simp
      · rw [List.filter_cons, if_pos (by
          simp [hcond]
          by_cases hE : E = []
          · exact Or.inl hE
          · right
            intro hm
            have h1 : (!E.isEmpty) = true := by
              cases E with
              | nil => exact absurd rfl hE
              | cons a l => rfl
            rw [h1, contains_iff_mem.mpr hm] at hcond
            simp at hcond)]
        show mainInstrumentId (⟨st.nextKey, i.name, [(0, convertInstrument i)], [], true⟩ : MsPart) :: new.map mainInstrumentId = _
        rw [c2]
        rfl
      · intro p hp
        rcases List.mem_cons.mp hp with h | h
        · exact ⟨convertInstrument i, by rw [h]⟩
        · exact c3 p h
      · rw [List.map_cons, List.nodup_cons]
        constructor
        · intro hmem
          obtain ⟨q, hq, hqe⟩ := List.mem_map.mp hmem
          have h5 := c5 q hq
          have hqn : q.pid = st.nextKey := hqe
          omega
        · exact c4
      · intro p hp
        rcases List.mem_cons.mp hp with h | h
        · subst h
          exact le_refl _
        · have h5 := c5 p h
          omega
      · exact c6.trans hstable.2.1
      · exact c7.trans hstable.2.2.1
      · exact c8.trans hstable.2.2.2.1
      · have := c9
        omega

theorem moveTail_pm (P : MsPart) (staves : List MsStaff) (idx : Nat) (s2 : NPState)
    (hmap : ∀ p ∈ s2.parts, p.pid = P.pid → p.instrumentsMap = P.instrumentsMap) :
    (updatePart P.pid (fun p => { p with instrumentsMap := P.instrumentsMap })
        (doMoveStaves staves idx none s2)).parts.map pmSig = s2.parts.map pmSig ∧
    (updatePart P.pid (fun p => { p with instrumentsMap := P.instrumentsMap })
        (doMoveStaves staves idx none s2)).curIsMaster = s2.curIsMaster ∧
    (updatePart P.pid (fun p => { p with instrumentsMap := P.instrumentsMap })
        (doMoveStaves staves idx none s2)).excerpts = s2.excerpts ∧
    (updatePart P.pid (fun p => { p with instrumentsMap := P.instrumentsMap })
        (doMoveStaves staves idx none s2)).measures = s2.measures := by
  have hstv := doMoveStaves_stable staves idx none s2
  have hmap3 : ∀ p ∈ (doMoveStaves staves idx none s2).parts,
      p.pid = P.pid → p.instrumentsMap = P.instrumentsMap := by
    intro p hp hpid
    have hmem : pmSig p ∈ (doMoveStaves staves idx none s2).parts.map pmSig :=
      List.mem_map_of_mem _ hp
    rw [hstv.1] at hmem
    obtain ⟨q, hq, hqe⟩ := List.mem_map.mp hmem
    have h1 : q.pid = p.pid := congrArg Prod.fst hqe
    have h2 : q.instrumentsMap = p.instrumentsMap := congrArg Prod.snd hqe
    rw [← h2]
    exact hmap q hq (h1.trans hpid)
  have hup : (updatePart P.pid (fun p => { p with instrumentsMap := P.instrumentsMap })
      (doMoveStaves staves idx none s2)).parts.map pmSig
      = (doMoveStaves staves idx none s2).parts.map pmSig := by
    show ((doMoveStaves staves idx none s2).parts.map _).map pmSig = _
    rw [List.map_map]
    apply List.map_congr_left
    intro p hp
    by_cases hc : p.pid = P.pid
    · simp only [Function.comp_apply, if_pos hc]
      show (p.pid, P.instrumentsMap) = (p.pid, p.instrumentsMap)
      rw [hmap3 p hp hc]
    · simp only [Function.comp_apply, if_neg hc]
  exact ⟨hup.trans hstv.1, hstv.2.1, hstv.2.2.1, hstv.2.2.2.1⟩

theorem doMovePart_pm (s : NPState) (pre post : List MsPart) (P C : MsPart)
    (he : s.excerpts = []) (hn : (s.parts.map MsPart.pid).Nodup)
    (hsplit : s.parts = pre ++ P :: post)
    (hpre : ∀ q ∈ pre, (q.pid == P.pid) = false)
    (hpost : ∀ q ∈ post, (q.pid == P.pid) = false)
    (hC : C ∈ s.parts) :
    (doMovePart P.pid C.pid InsertMode.before s).parts.map pmSig
      = listInsertIdx ((pre ++ post).map pmSig)
          ((pre ++ post).findIdx (fun p => p.pid == C.pid)) (pmSig P) ∧
    (doMovePart P.pid C.pid InsertMode.before s).curIsMaster = s.curIsMaster ∧
    (doMovePart P.pid C.pid InsertMode.before s).excerpts = [] ∧
    (doMovePart P.pid C.pid InsertMode.before s).measures = s.measures := by
  have hP : P ∈ s.parts := by
    rw [hsplit]
    exact List.mem_append.mpr (Or.inr (List.mem_cons_self _ _))
  have e1 : partLookupCur s P.pid = some P := by
    rw [partLookupCur, availablePartsCur_no_exc he]
    exact find?_pid_nodup hn hP
  have e2 : partLookupCur s C.pid = some C := by
    rw [partLookupCur, availablePartsCur_no_exc he]
    exact find?_pid_nodup hn hC
  have hep : s.parts.eraseP (fun p => p.pid == P.pid) = pre ++ post := by
    rw [hsplit]
    rw [List.eraseP_append_right _ (fun q hq => by rw [hpre q hq]; simp)]
    congr 1
    rw [List.eraseP_cons]
    simp
  rw [doMovePart, e1, e2]
  dsimp only
  rw [hep]
  have hmap : ∀ p ∈ ({ s with parts := listInsertIdx (pre ++ post) ((pre ++ post).findIdx (fun p => p.pid == C.pid)) P } : NPState).parts,
      p.pid = P.pid → p.instrumentsMap = P.instrumentsMap := by
    intro p hp hpid
    rcases listInsertIdx_mem hp with h | h
    · rw [h]
    · exfalso
      have hb : (p.pid == P.pid) = false := by
        rcases List.mem_append.mp h with hm | hm
        · exact hpre p hm
        · exact hpost p hm
      rw [hpid] at hb
      simp at hb
  obtain ⟨m1, m2, m3, m4⟩ := moveTail_pm P P.staves
    (if staffIdxOfPart s P.pid < staffIdxOfPart s C.pid then P.staves.length else 0)
    { s with parts := listInsertIdx (pre ++ post) ((pre ++ post).findIdx (fun p => p.pid == C.pid)) P } hmap
  refine ⟨?_, m2, by rw [m3]; exact he, m4⟩
  rw [m1]
  show (listInsertIdx (pre ++ post) _ P).map pmSig = _
  rw [listInsertIdx_map]

theorem sortLoop_sorts (ids : List Nat) (hids : ids.Nodup) :
    ∀ (fuel i : Nat) (s : NPState),
      i + fuel = ids.length →
      s.excerpts = [] →
      (s.parts.map MsPart.pid).Nodup →
      (s.parts.map mainInstrumentId).Perm ids →
      s.parts.length = ids.length →
      (s.parts.map mainInstrumentId).take i = ids.take i →
      (sortLoop ids i fuel s).parts.map mainInstrumentId = ids ∧
      ((sortLoop ids i fuel s).parts.map pmSig).Perm (s.parts.map pmSig) ∧
      (sortLoop ids i fuel s).excerpts = [] ∧
      (sortLoop ids i fuel s).curIsMaster = s.curIsMaster ∧
      (sortLoop ids i fuel s).measures = s.measures := by
  intro fuel
  induction fuel with
  | zero =>
    intro i s hif he hn hperm hlen htake
    have hi : i = ids.length := by omega
    refine ⟨?_, List.Perm.refl _, he, rfl, rfl⟩
    have h1 : (s.parts.map mainInstrumentId).take i = s.parts.map mainInstrumentId :=
      List.take_of_length_le (by rw [List.length_map, hlen, hi])
    have h2 : ids.take i = ids := List.take_of_length_le (by rw [hi])
    show s.parts.map mainInstrumentId = ids
    rw [← h1, htake, h2]
  | succ fuel ih =>
    intro i s hif he hn hperm hlen htake
    have hilt : i < ids.length := by omega
    have hplen : i < s.parts.length := by omega
    rw [sortLoop]
    rw [List.getElem?_eq_getElem hplen]
    dsimp only
    by_cases hmc : mainInstrumentId (s.parts[i]) = ids.getD i 0
    · rw [if_pos hmc]
      apply ih (i + 1) s (by omega) he hn hperm hlen
      rw [List.take_succ, List.take_succ, htake]
      congr 1
      have hg1 : (s.parts.map mainInstrumentId)[i]?
          = some (mainInstrumentId (s.parts[i])) := by
        rw [List.getElem?_eq_getElem (by rw [List.length_map]; exact hplen)]
        congr 1
        simp
      have hg2 : ids[i]? = some (ids[i]) := by
        rw [List.getElem?_eq_getElem hilt]
      rw [hg1, hg2, hmc]
      exact congrArg _ (congrArg some (List.getD_eq_getElem ids 0 hilt))
    · rw [if_neg hmc]
      have hidmem : ids[i] ∈ s.parts.map mainInstrumentId :=
        hperm.mem_iff.mpr (List.getElem_mem hilt)
      have hdropids : ids.drop i = ids[i] :: ids.drop (i + 1) :=
        List.drop_eq_getElem_cons hilt
      have hnotintake : ids[i] ∉ ids.take i := by
        intro hmem
        have hdisj := List.disjoint_take_drop hids (le_refl i)
        exact hdisj hmem (by rw [hdropids]; exact List.mem_cons_self _ _)
      have hmem_drop : ids[i] ∈ (s.parts.map mainInstrumentId).drop i := by
        have := (List.take_append_drop i (s.parts.map mainInstrumentId)) ▸ hidmem
        rcases List.mem_append.mp this with h | h
        · rw [htake] at h
          exact absurd h hnotintake
        · exact h
      have hmem_drop2 : ids[i] ∈ (s.parts.drop i).map mainInstrumentId := by
        rw [List.map_drop]
        exact hmem_drop
      obtain ⟨P0, hP0mem, hP0main⟩ := List.mem_map.mp hmem_drop2
      have hfindsome : ((s.parts.drop i).find?
          (fun p => mainInstrumentId p == ids.getD i 0)).isSome := by
        rw [List.find?_isSome]
        refine ⟨P0, hP0mem, ?_⟩
        rw [hP0main, List.getD_eq_getElem ids 0 hilt]
        simp
      obtain ⟨P, hPfind⟩ := Option.isSome_iff_exists.mp hfindsome
      rw [hPfind]
      obtain ⟨l₁, l₂, hdec, hl₁, hPpred⟩ := find?_split hPfind
      have hPmain : mainInstrumentId P = ids.getD i 0 := by
        have := hPpred
        simp only [beq_iff_eq] at this
        exact this
      have hdropC : s.parts.drop i
          = s.parts[i] :: s.parts.drop (i + 1) :=
        List.drop_eq_getElem_cons hplen
      cases l₁ with
      | nil =>
        exfalso
        rw [hdec] at hdropC
        injection hdropC with h1 h2
        exact hmc (by rw [← h1]; exact hPmain)
      | cons c0 l₁' =>
        have hinj : c0 = s.parts[i] ∧ l₁' ++ P :: l₂ = s.parts.drop (i + 1) := by
          rw [hdec] at hdropC
          rw [List.cons_append] at hdropC
          injection hdropC with h1 h2
          exact ⟨h1, h2⟩
        obtain ⟨hc0, hrest⟩ := hinj
        subst hc0
        have hparts : s.parts
            = (s.parts.take i ++ s.parts[i] :: l₁') ++ P :: l₂ := by
          conv_lhs => rw [← List.take_append_drop i s.parts, hdropC, ← hrest]
          simp
        have hpartsNodup : s.parts.Nodup := hn.of_map
        have hpidne : ∀ q ∈ s.parts, ∀ r ∈ s.parts, q.pid = r.pid → q = r :=
          fun q hq r hr hqr => List.inj_on_of_nodup_map hn hq hr hqr
        have hnod2 : ((s.parts.take i ++ s.parts[i] :: l₁').map MsPart.pid
            ++ (P :: l₂).map MsPart.pid).Nodup := by
          rw [← List.map_append, ← hparts]
          exact hn
        have hPnotpre : ∀ q ∈ s.parts.take i ++ s.parts[i] :: l₁',
            (q.pid == P.pid) = false := by
          intro q hq
          have h1 : q.pid ∈ (s.parts.take i ++ s.parts[i] :: l₁').map MsPart.pid :=
            List.mem_map_of_mem _ hq
          have h2 := (List.nodup_append.mp hnod2).2.2
          simp only [beq_eq_false_iff_ne, ne_eq]
          intro hqe
          exact h2 h1 (by rw [hqe]; exact List.mem_map_of_mem _ (List.mem_cons_self _ _))
        have hPnotpost : ∀ q ∈ l₂, (q.pid == P.pid) = false := by
          intro q hq
          have h2 := (List.nodup_append.mp hnod2).2.1
          simp only [List.map_cons, List.nodup_cons] at h2
          simp only [beq_eq_false_iff_ne, ne_eq]
          intro hqe
          exact h2.1 (by rw [← hqe]; exact List.mem_map_of_mem _ hq)
        have hCmem : s.parts[i] ∈ s.parts := List.getElem_mem hplen
        obtain ⟨d1, d2, d3, d4⟩ := doMovePart_pm s
          (s.parts.take i ++ s.parts[i] :: l₁') l₂ P (s.parts[i])
          he hn hparts hPnotpre hPnotpost hCmem
        have hlentake : (s.parts.take i).length = i := List.length_take_of_le (le_of_lt hplen)
        have hdisj := List.disjoint_take_drop hn.of_map (le_refl i)
        have hCdrop : s.parts[i] ∈ s.parts.drop i := by
          rw [hdropC]
          exact List.mem_cons_self _ _
        have hpreC_ne : ∀ q ∈ s.parts.take i, (q.pid == s.parts[i].pid) = false := by
          intro q hq
          simp only [beq_eq_false_iff_ne, ne_eq]
          intro hqe
          have hqp : q ∈ s.parts := List.take_subset _ _ hq
          have : q = s.parts[i] := List.inj_on_of_nodup_map hn hqp hCmem hqe
          rw [this] at hq
          exact hdisj hq hCdrop
        have hfi : (((s.parts.take i ++ s.parts[i] :: l₁') ++ l₂).findIdx (fun p => p.pid == s.parts[i].pid)) = i := by
          rw [List.append_assoc]
          rw [findIdx_append_not _ _ _ hpreC_ne]
          rw [List.cons_append, List.findIdx_cons]
          simp [hlentake]
        rw [hfi] at d1
        have hsplit2 : listInsertIdx (((s.parts.take i ++ s.parts[i] :: l₁') ++ l₂).map pmSig) i (pmSig P)
            = (s.parts.take i).map pmSig ++ pmSig P :: ((s.parts[i] :: l₁') ++ l₂).map pmSig := by
          have hlenA : ((s.parts.take i).map pmSig).length = i := by
            rw [List.length_map, hlentake]
          have h2 := listInsertIdx_append_length ((s.parts.take i).map pmSig)
            (((s.parts[i] :: l₁') ++ l₂).map pmSig) (pmSig P)
          rw [hlenA] at h2
          rw [← h2]
          congr 1
          rw [← List.map_append, List.append_assoc]
        rw [hsplit2] at d1
        have hpmperm : ((doMovePart P.pid s.parts[i].pid InsertMode.before s).parts.map pmSig).Perm (s.parts.map pmSig) := by
          rw [d1]
          have hr : s.parts.map pmSig = (s.parts.take i).map pmSig
              ++ ((s.parts[i] :: l₁').map pmSig ++ pmSig P :: l₂.map pmSig) := by
            conv_lhs => rw [hparts]
            simp [List.map_append, List.append_assoc]
          rw [hr]
          apply List.Perm.append_left
          have hmapp : ((s.parts[i] :: l₁') ++ l₂).map pmSig
              = (s.parts[i] :: l₁').map pmSig ++ l₂.map pmSig := List.map_append _ _ _
          rw [hmapp]
          exact (List.perm_middle).symm
        have hn2 : ((doMovePart P.pid s.parts[i].pid InsertMode.before s).parts.map MsPart.pid).Nodup := ((pmPerm_pid hpmperm).nodup_iff).mpr hn
        have hperm2 : ((doMovePart P.pid s.parts[i].pid InsertMode.before s).parts.map mainInstrumentId).Perm ids := (pmPerm_main hpmperm).trans hperm
        have hlen2 : (doMovePart P.pid s.parts[i].pid InsertMode.before s).parts.length = ids.length := by
          have hh := hpmperm.length_eq
          rw [List.length_map, List.length_map] at hh
          rw [hh, hlen]
        have hmains : (doMovePart P.pid s.parts[i].pid InsertMode.before s).parts.map mainInstrumentId
            = (s.parts.take i).map mainInstrumentId
              ++ mainInstrumentId P :: ((s.parts[i] :: l₁') ++ l₂).map mainInstrumentId := by
          rw [pm_map_main, d1, List.map_append, List.map_cons]
          congr 1
          · rw [← pm_map_main]
          · congr 1
            rw [← pm_map_main]
        have htake2 : ((doMovePart P.pid s.parts[i].pid InsertMode.before s).parts.map mainInstrumentId).take (i + 1) = ids.take (i + 1) := by
          rw [hmains]
          rw [List.take_append_eq_append_take]
          rw [List.take_of_length_le (by rw [List.length_map, hlentake]; omega)]
          rw [show i + 1 - ((s.parts.take i).map mainInstrumentId).length = 1 from by rw [List.length_map, hlentake]; omega]
          rw [List.take_succ_cons, List.take_zero]
          rw [List.map_take, htake, hPmain]
          rw [List.getD_eq_getElem ids 0 hilt]
          rw [List.take_succ]
          rw [List.getElem?_eq_getElem hilt]
          rfl
        obtain ⟨f1, f2, f3, f4, f5⟩ := ih (i + 1) (doMovePart P.pid s.parts[i].pid InsertMode.before s) (by omega) d3 hn2 hperm2 hlen2 htake2
        exact ⟨f1, f2.trans hpmperm, f3, f4.trans d2, f5.trans d4⟩

theorem sortLoop_fixed (ids : List Nat) :
    ∀ (fuel i : Nat) (s : NPState),
      (∀ j, (hj : j < s.parts.length) → mainInstrumentId s.parts[j] = ids.getD j 0) →
      sortLoop ids i fuel s = s := by
  intro fuel
  induction fuel with
  | zero => intro i s _; rfl
  | succ fuel ih =>
    intro i s hall
    rw [sortLoop]
    by_cases hi : i < s.parts.length
    · rw [List.getElem?_eq_getElem hi]
      dsimp only
      rw [if_pos (hall i hi)]
      exact ih (i + 1) s hall
    · rw [List.getElem?_eq_none (by omega)]
      dsimp only
      exact ih (i + 1) s hall

theorem removeEmptyExcerpts_of_empty {s : NPState} (he : s.excerpts = []) :
    removeEmptyExcerpts s = s := by
  rw [removeEmptyExcerpts, he]
  show ({ s with excerpts := [] } : NPState) = s
  rw [← he]

theorem createPartsLoop_skip (E : List Nat) :
    ∀ (L : List Instrument) (st : NPState),
      (∀ i ∈ L, (!E.isEmpty && E.contains i.id) = true) →
      createPartsLoop E L st = st := by
  intro L
  induction L with
  | nil => intro st _; rfl
  | cons i rest ih =>
    intro st hall
    rw [createPartsLoop]
    dsimp only
    rw [if_pos (hall i (by simp))]
    exact ih st (fun j hj => hall j (List.mem_cons_of_mem _ hj))

theorem setInstruments_postwf_noop (L : List Instrument) (s1 : NPState)
    (hpost : PostWF s1 L) :
    setInstruments L s1 = some (s1, [Event.partsNotifierChanged, Event.partsChanged]) := by
  obtain ⟨hcm, hexc, hnodup, hkeys, hmains, hmeas⟩ := hpost
  have hkeys' : ∀ p ∈ s1.parts, ∃ m, p.instrumentsMap = [(0, m)] :=
    fun p hp => keys_single (hkeys p hp)
  have hloop := removeMissingLoop_single (L.map Instrument.id) s1.parts s1 []
    (fun p hp => ⟨by rw [find?_pid_nodup hnodup hp]; rfl, hkeys' p hp⟩)
  have hfil : s1.parts.filter
      (fun p => !((L.map Instrument.id).contains (mainInstrumentId p))) = [] := by
    rw [List.filter_eq_nil_iff]
    intro p hp
    have hmem : (L.map Instrument.id).contains (mainInstrumentId p) = true := by
      apply contains_iff_mem.mpr
      rw [← hmains]
      exact List.mem_map_of_mem _ hp
    rw [hmem]
    simp
  have hrm : removeMissingInstruments (L.map Instrument.id) s1 = s1 := by
    rw [removeMissingInstruments, partListParts_no_exc hexc hnodup, hloop]
    dsimp only
    rw [hfil]
    rfl
  have hexisted : allInstrumentsIds s1 = L.map Instrument.id := by
    rw [allInstrumentsIds_single s1 hexc hnodup hkeys', hmains]
  have hcreate : createPartsLoop (L.map Instrument.id) L s1 = s1 := by
    apply createPartsLoop_skip
    intro i hi
    have h0 : i.id ∈ L.map Instrument.id := List.mem_map_of_mem _ hi
    cases hmap : L.map Instrument.id with
    | nil => rw [hmap] at h0; cases h0
    | cons a t =>
      rw [hmap] at h0
      rw [contains_iff_mem.mpr h0]
      rfl
  have hmeasne : s1.measures.isEmpty = false := by
    cases hm2 : s1.measures with
    | nil => exact absurd hm2 hmeas
    | cons a t => rfl
  have hlen : s1.parts.length = (L.map Instrument.id).length := by
    have hh := congrArg List.length hmains
    rw [List.length_map, List.length_map] at hh
    rw [List.length_map]
    exact hh
  have hfix : ∀ j, (hj : j < s1.parts.length) →
      mainInstrumentId s1.parts[j] = (L.map Instrument.id).getD j 0 := by
    intro j hj
    have hjlen : j < (L.map Instrument.id).length := by omega
    have hjlen2 : j < (s1.parts.map mainInstrumentId).length := by
      rw [List.length_map]
      omega
    have h1 : (s1.parts.map mainInstrumentId)[j]? = (L.map Instrument.id)[j]? := by
      rw [hmains]
    rw [List.getElem?_eq_getElem hjlen2, List.getElem?_eq_getElem hjlen] at h1
    injection h1 with h2
    rw [List.getD_eq_getElem _ 0 hjlen, ← h2, List.getElem_map]
  have hsort : sortParts (L.map Instrument.id) s1 = some s1 := by
    rw [sortParts, if_pos hlen]
    rw [sortLoop_fixed (L.map Instrument.id) (L.map Instrument.id).length 0 s1 hfix]
  have hids_eq : L.map (fun i => i.id) = L.map Instrument.id := rfl
  rw [setInstruments]
  dsimp only
  rw [hids_eq, hrm, hexisted, hcreate, hmeasne]
  rw [if_neg (by simp)]
  rw [hsort]
  dsimp only
  rw [removeEmptyExcerpts_of_empty hexc]

theorem filter_map_comm {α β : Type} (f : α → β) (p : β → Bool) (l : List α) :
    (l.filter (fun x => p (f x))).map f = (l.map f).filter p := by
  induction l with
  | nil => rfl
  | cons a tl ih => by_cases hc : p (f a) <;> simp [List.filter_cons, hc, ih]

theorem sortPhase_post (L : List Instrument) (hids : (L.map Instrument.id).Nodup)
    (s3 : NPState) (hexc3 : s3.excerpts = []) (hcm3 : s3.curIsMaster = true)
    (hnod3 : (s3.parts.map MsPart.pid).Nodup)
    (hkeys3 : ∀ p ∈ s3.parts, p.instrumentsMap.map Prod.fst = [0])
    (hperm3 : (s3.parts.map mainInstrumentId).Perm (L.map Instrument.id))
    (hmeas3 : s3.measures ≠ []) :
    ∃ s4, sortParts (L.map Instrument.id) s3 = some s4 ∧ PostWF s4 L := by
  have hlen3 : s3.parts.length = (L.map Instrument.id).length := by
    have hh := hperm3.length_eq
    rw [List.length_map] at hh
    rw [← hh]
  rw [sortParts, if_pos hlen3]
  obtain ⟨f1, f2, f3, f4, f5⟩ := sortLoop_sorts (L.map Instrument.id) hids
    (L.map Instrument.id).length 0 s3 (by omega) hexc3 hnod3 hperm3 hlen3 (by rfl)
  refine ⟨_, rfl, f4.trans hcm3, f3, ?_, ?_, f1, ?_⟩
  · exact ((pmPerm_pid f2).nodup_iff).mpr hnod3
  · exact pmPerm_keys (fun m => m.map Prod.fst = [0]) f2 hkeys3
  · rw [f5]
    exact hmeas3

theorem setInstruments_wf_chars (L : List Instrument) (s : NPState)
    (hwf : WFSetInstruments s L) :
    ∃ s5, setInstruments L s
        = some (s5, [Event.partsNotifierChanged, Event.partsChanged])
      ∧ PostWF s5 L := by
  obtain ⟨hcm, hexc, hnodup, hbound, hkeys01, hmainsnd, hidsnd⟩ := hwf
  have hkeys2 : ∀ p ∈ s.parts, ∃ m, p.instrumentsMap = [(0, m)] :=
    fun p hp => keys_single (hkeys01 p hp)
  obtain ⟨r1, r2, r3, r4, r5⟩ := removeMissing_wf (L.map Instrument.id) s hcm hexc hnodup hkeys2
  have hRsub : ∀ p ∈ (removeMissingInstruments (L.map Instrument.id) s).parts, p ∈ s.parts := by
    intro p hp
    rw [r1] at hp
    exact List.mem_of_mem_filter hp
  have hRn : ((removeMissingInstruments (L.map Instrument.id) s).parts.map MsPart.pid).Nodup := by
    rw [r1]
    exact List.Nodup.sublist ((List.filter_sublist _).map MsPart.pid) hnodup
  have hRkeys : ∀ p ∈ (removeMissingInstruments (L.map Instrument.id) s).parts, ∃ m, p.instrumentsMap = [(0, m)] :=
    fun p hp => hkeys2 p (hRsub p hp)
  have hRbound : ∀ p ∈ (removeMissingInstruments (L.map Instrument.id) s).parts, p.pid < (removeMissingInstruments (L.map Instrument.id) s).nextKey := by
    intro p hp
    rw [r5]
    exact hbound p (hRsub p hp)
  have hRmains : (removeMissingInstruments (L.map Instrument.id) s).parts.map mainInstrumentId
      = (s.parts.map mainInstrumentId).filter (fun x => (L.map Instrument.id).contains x) := by
    rw [r1]
    exact filter_map_comm mainInstrumentId (fun x => (L.map Instrument.id).contains x) s.parts
  have hAll : allInstrumentsIds (removeMissingInstruments (L.map Instrument.id) s) = (removeMissingInstruments (L.map Instrument.id) s).parts.map mainInstrumentId :=
    allInstrumentsIds_single (removeMissingInstruments (L.map Instrument.id) s) r3 hRn hRkeys
  have hMnd : ((removeMissingInstruments (L.map Instrument.id) s).parts.map mainInstrumentId).Nodup := by
    rw [hRmains]
    exact List.Nodup.filter _ hmainsnd
  have hMsub : ∀ x ∈ (removeMissingInstruments (L.map Instrument.id) s).parts.map mainInstrumentId, x ∈ (L.map Instrument.id) := by
    intro x hx
    rw [hRmains] at hx
    exact contains_iff_mem.mp (List.of_mem_filter hx)
  obtain ⟨new, c1, c2, c3, c4, c5, c6, c7, c8, c9⟩ := createPartsLoop_spec (allInstrumentsIds (removeMissingInstruments (L.map Instrument.id) s)) L (removeMissingInstruments (L.map Instrument.id) s) hRbound
  have hCpids : (createPartsLoop (allInstrumentsIds (removeMissingInstruments (L.map Instrument.id) s)) L (removeMissingInstruments (L.map Instrument.id) s)).parts.map MsPart.pid = (removeMissingInstruments (L.map Instrument.id) s).parts.map MsPart.pid ++ new.map MsPart.pid := by
    rw [pm_map_pid, c1, List.map_append, ← pm_map_pid, ← pm_map_pid]
  have hCn : ((createPartsLoop (allInstrumentsIds (removeMissingInstruments (L.map Instrument.id) s)) L (removeMissingInstruments (L.map Instrument.id) s)).parts.map MsPart.pid).Nodup := by
    rw [hCpids, List.nodup_append]
    refine ⟨hRn, c4, ?_⟩
    intro x hx hx2
    obtain ⟨q, hq, hqe⟩ := List.mem_map.mp hx
    obtain ⟨q2, hq2, hqe2⟩ := List.mem_map.mp hx2
    have b1 := hRbound q hq
    have b2 := c5 q2 hq2
    rw [hqe] at b1
    rw [hqe2] at b2
    omega
  have hCkeys : ∀ p ∈ (createPartsLoop (allInstrumentsIds (removeMissingInstruments (L.map Instrument.id) s)) L (removeMissingInstruments (L.map Instrument.id) s)).parts, ∃ m, p.instrumentsMap = [(0, m)] := by
    intro p hp
    have hmem : pmSig p ∈ (removeMissingInstruments (L.map Instrument.id) s).parts.map pmSig ++ new.map pmSig := by
      rw [← c1]
      exact List.mem_map_of_mem _ hp
    rcases List.mem_append.mp hmem with h | h
    · obtain ⟨q, hq, hqe⟩ := List.mem_map.mp h
      have hqm : q.instrumentsMap = p.instrumentsMap := congrArg Prod.snd hqe
      rw [← hqm]
      exact hRkeys q hq
    · obtain ⟨q, hq, hqe⟩ := List.mem_map.mp h
      have hqm : q.instrumentsMap = p.instrumentsMap := congrArg Prod.snd hqe
      rw [← hqm]
      exact c3 q hq
  have hCmains : (createPartsLoop (allInstrumentsIds (removeMissingInstruments (L.map Instrument.id) s)) L (removeMissingInstruments (L.map Instrument.id) s)).parts.map mainInstrumentId
      = (removeMissingInstruments (L.map Instrument.id) s).parts.map mainInstrumentId ++ new.map mainInstrumentId := by
    rw [pm_map_main, c1, List.map_append, ← pm_map_main, ← pm_map_main]
  have hCperm : ((createPartsLoop (allInstrumentsIds (removeMissingInstruments (L.map Instrument.id) s)) L (removeMissingInstruments (L.map Instrument.id) s)).parts.map mainInstrumentId).Perm (L.map Instrument.id) := by
    rw [hCmains, c2, hAll]
    by_cases hM : (removeMissingInstruments (L.map Instrument.id) s).parts.map mainInstrumentId = []
    · rw [hM, List.nil_append]
      have hLf : L.filter (fun i =>
          !(!([] : List Nat).isEmpty && ([] : List Nat).contains i.id)) = L :=
        List.filter_eq_self.mpr (fun a _ => rfl)
      rw [hLf]
    · have hfc : (L.filter (fun i =>
          !(!((removeMissingInstruments (L.map Instrument.id) s).parts.map mainInstrumentId).isEmpty
            && ((removeMissingInstruments (L.map Instrument.id) s).parts.map mainInstrumentId).contains i.id)))
          = L.filter (fun i => !(((removeMissingInstruments (L.map Instrument.id) s).parts.map mainInstrumentId).contains i.id)) := by
        apply List.filter_congr
        intro a _
        cases hM2 : (removeMissingInstruments (L.map Instrument.id) s).parts.map mainInstrumentId with
        | nil => exact absurd hM2 hM
        | cons x t => rfl
      rw [hfc, filter_map_comm Instrument.id
        (fun x => !(((removeMissingInstruments (L.map Instrument.id) s).parts.map mainInstrumentId).contains x)) L]
      have hp1 : ((removeMissingInstruments (L.map Instrument.id) s).parts.map mainInstrumentId).Perm
          ((L.map Instrument.id).filter (fun x => ((removeMissingInstruments (L.map Instrument.id) s).parts.map mainInstrumentId).contains x)) := by
        rw [List.perm_ext_iff_of_nodup hMnd (List.Nodup.filter _ hidsnd)]
        intro x
        constructor
        · intro hx
          exact List.mem_filter.mpr ⟨hMsub x hx, contains_iff_mem.mpr hx⟩
        · intro hx
          exact contains_iff_mem.mp (List.of_mem_filter hx)
      exact (hp1.append_right _).trans (List.filter_append_perm _ (L.map Instrument.id))
  have hCcm : (createPartsLoop (allInstrumentsIds (removeMissingInstruments (L.map Instrument.id) s)) L (removeMissingInstruments (L.map Instrument.id) s)).curIsMaster = true := c6.trans r2
  have hCexc : (createPartsLoop (allInstrumentsIds (removeMissingInstruments (L.map Instrument.id) s)) L (removeMissingInstruments (L.map Instrument.id) s)).excerpts = [] := c7.trans r3
  rw [setInstruments]
  dsimp only
  by_cases hm3 : (createPartsLoop (allInstrumentsIds (removeMissingInstruments (L.map Instrument.id) s)) L (removeMissingInstruments (L.map Instrument.id) s)).measures.isEmpty = true
  · rw [if_pos hm3]
    obtain ⟨s4, hs4, hpost4⟩ := sortPhase_post L hidsnd ({ (createPartsLoop (allInstrumentsIds (removeMissingInstruments (L.map Instrument.id) s)) L (removeMissingInstruments (L.map Instrument.id) s)) with measures := [0] })
      hCexc hCcm hCn
      (fun p hp => by obtain ⟨m, hm⟩ := hCkeys p hp; rw [hm]; rfl)
      hCperm (by simp)
    rw [hs4]
    dsimp only
    rw [removeEmptyExcerpts_of_empty hpost4.2.1]
    exact ⟨s4, rfl, hpost4⟩
  · rw [if_neg hm3]
    obtain ⟨s4, hs4, hpost4⟩ := sortPhase_post L hidsnd (createPartsLoop (allInstrumentsIds (removeMissingInstruments (L.map Instrument.id) s)) L (removeMissingInstruments (L.map Instrument.id) s)) hCexc hCcm hCn
      (fun p hp => by obtain ⟨m, hm⟩ := hCkeys p hp; rw [hm]; rfl)
      hCperm (fun h => hm3 (by rw [h]; rfl))
    rw [hs4]
    dsimp only
    rw [removeEmptyExcerpts_of_empty hpost4.2.1]
    exact ⟨s4, rfl, hpost4⟩

/-- C6: amended safety of the `sortParts` part-count assertion.  The original
claim ("the mismatch is only reachable by caller contract violation") fails on
a reachable doubling-instrument score; under the component's single-instrument
well-formedness (`WFSetInstruments`: master score, no excerpts, unique part
ids below the freshness counter, every part carrying exactly one tick-0
instrument, distinct mains, distinct supplied ids) the removal and creation
phases leave exactly one part per supplied instrument id, so `sortParts`'s
fatal assertion holds and `setInstruments` succeeds. -/
theorem setInstruments_wf_succeeds (L : List Instrument) (s : NPState)
    (hwf : WFSetInstruments s L) : (setInstruments L s).isSome := by
  obtain ⟨s5, h5, _⟩ := setInstruments_wf_chars L s hwf
  rw [h5]
  rfl

/-- The original C6 wording is refuted: on a score whose single part carries a
doubling instrument (Violin at tick 0, Viola at tick 4 — a state reachable via
`appendDoublingInstrument`), `setInstruments` with exactly those two
instrument ids keeps the one part in the removal phase, creates nothing (both
ids exist), and then hits the fatal part-count assertion (1 part vs 2 ids)
even though the caller supplied precisely the instrument ids present. -/
theorem setInstruments_mismatch_counterexample :
    setInstruments [exViolinIn, exViolaIn] exDoublingState = none
    ∧ (createPartsLoop
        (allInstrumentsIds (removeMissingInstruments
          (List.map Instrument.id [exViolinIn, exViolaIn]) exDoublingState))
        [exViolinIn, exViolaIn]
        (removeMissingInstruments
          (List.map Instrument.id [exViolinIn, exViolaIn]) exDoublingState)).parts.length = 1 :=
  ⟨rfl, rfl⟩

/-- Witness: C6 amended theorem applied at a concrete well-formed one-part
score. -/
theorem setInstruments_wf_succeeds_witness :
    WFSetInstruments exViolinState [exViolinIn]
    ∧ (setInstruments [exViolinIn] exViolinState).isSome :=
  ⟨by decide, setInstruments_wf_succeeds [exViolinIn] exViolinState (by decide)⟩

/-- C1: `setInstruments` is idempotent.  For a well-formed score and
instrument list (`WFSetInstruments`), if the first call succeeds and returns
state `s1`, the second call with the same list returns `s1` itself unchanged
— the removal phase removes nothing, the creation phase creates nothing, the
sort pass relocates nothing — and fires only the two blanket part
notifications (`partsNotifierChanged`, `partsChanged`), i.e. no per-part or
per-instrument notification. -/
theorem setInstruments_idempotent (L : List Instrument) (s : NPState)
    (hwf : WFSetInstruments s L) (s1 : NPState) (ev : List Event)
    (h1 : setInstruments L s = some (s1, ev)) :
    setInstruments L s1 = some (s1, [Event.partsNotifierChanged, Event.partsChanged]) := by
  obtain ⟨s5, h5, hpost⟩ := setInstruments_wf_chars L s hwf
  rw [h1] at h5
  have hpair := Option.some.inj h5
  have hs : s1 = s5 := congrArg Prod.fst hpair
  rw [hs]
  exact setInstruments_postwf_noop L s5 hpost

/-- Witness: C1 applied at a concrete one-part score, whose `setInstruments`
fixed point is the score itself. -/
theorem setInstruments_idempotent_witness :
    setInstruments [exViolinIn] exViolinState
      = some (exViolinState, [Event.partsNotifierChanged, Event.partsChanged]) :=
  setInstruments_idempotent [exViolinIn] exViolinState (by decide) exViolinState
    [Event.partsNotifierChanged, Event.partsChanged] (by decide)

end MuseParts
